import Mathlib

/-!
# ci-operator: job specification and the source-directory image build step

A verification development over `pkg/api/job_spec.go` and
`pkg/steps/project_image.go`.

Go strings are byte sequences; they are embedded as lists of bytes so that
strings holding invalid UTF-8 are part of the model.  The parts of Go's
standard library that the two files call (`encoding/json` marshalling of the
types of `job_spec.go`, `unicode/utf8` decoding, `strconv` integer formatting,
`strings.Replace`, `strings.ToUpper`, `fmt.Sprintf` with `%s`, `%d`, `%v`) are
embedded next to the code that uses them.
-/

set_option maxRecDepth 100000

namespace CiOperator

/-! ## Go strings -/

/-- A Go `string`: an immutable sequence of bytes, not necessarily valid UTF-8. -/
abbrev GoString := List (Fin 256)

/-- The bytes of an ASCII string literal of the source. -/
def ascii (s : String) : GoString := s.data.map fun c => Fin.ofNat c.toNat

/-- Value of `utf8.RuneError`, the replacement character U+FFFD. -/
def RuneError : Nat := 0xFFFD

/-- Entry of the table `first` of `unicode/utf8` for a lead byte that is not
ASCII: `none` for an invalid lead byte (`xx`), otherwise the size of the
sequence and the accepted range `lo..hi` of its second byte. -/
def first (s0 : Nat) : Option (Nat × Nat × Nat) :=
  if s0 < 0xC2 then none
  else if s0 < 0xE0 then some (2, 0x80, 0xBF)
  else if s0 = 0xE0 then some (3, 0xA0, 0xBF)
  else if s0 = 0xED then some (3, 0x80, 0x9F)
  else if s0 < 0xF0 then some (3, 0x80, 0xBF)
  else if s0 = 0xF0 then some (4, 0x90, 0xBF)
  else if s0 < 0xF4 then some (4, 0x80, 0xBF)
  else if s0 = 0xF4 then some (4, 0x80, 0x8F)
  else none

/-- Go's `utf8.DecodeRuneInString`: the first rune of `s` and its width in
bytes; `(RuneError, 1)` when the encoding is invalid, `(RuneError, 0)` when
`s` is empty.  The masks `s0&mask2`, `s1&maskx`, ... are written as remainders
and the shifts as multiplications. -/
def DecodeRuneInString (s : GoString) : Nat × Nat :=
  match s with
  | [] => (RuneError, 0)
  | s0 :: t =>
    if s0.val < 0x80 then (s0.val, 1)
    else
      match first s0.val with
      | none => (RuneError, 1)
      | some (sz, lo, hi) =>
        if s.length < sz then (RuneError, 1)
        else
          match t with
          | [] => (RuneError, 1)
          | s1 :: t1 =>
            if s1.val < lo ∨ hi < s1.val then (RuneError, 1)
            else if sz ≤ 2 then ((s0.val % 32) * 64 + s1.val % 64, 2)
            else
              match t1 with
              | [] => (RuneError, 1)
              | s2 :: t2 =>
                if s2.val < 0x80 ∨ 0xBF < s2.val then (RuneError, 1)
                else if sz ≤ 3 then
                  ((s0.val % 16) * 4096 + (s1.val % 64) * 64 + s2.val % 64, 3)
                else
                  match t2 with
                  | [] => (RuneError, 1)
                  | s3 :: _ =>
                    if s3.val < 0x80 ∨ 0xBF < s3.val then (RuneError, 1)
                    else
                      ((s0.val % 8) * 262144 + (s1.val % 64) * 4096
                        + (s2.val % 64) * 64 + s3.val % 64, 4)

/-- Loop of Go's `utf8.ValidString`, with the string length as fuel. -/
def validLoop : Nat → GoString → Bool
  | _, [] => true
  | 0, _ :: _ => false
  | n + 1, b :: rest =>
    let d := DecodeRuneInString (b :: rest)
    if d.1 = RuneError ∧ d.2 = 1 then false
    else validLoop n (rest.drop (d.2 - 1))

/-- Go's `utf8.ValidString`: `s` consists entirely of valid UTF-8 encodings. -/
def ValidString (s : GoString) : Bool := validLoop s.length s

/-! ## `encoding/json`: strings -/

/-- The digit table `hex` of `encoding/json`. -/
def hex (n : Nat) : Fin 256 := (ascii "0123456789abcdef").getD n 0

/-- The table `htmlSafeSet` of `encoding/json`: the ASCII bytes written
without escaping when HTML escaping is on, as it is for `json.Marshal`. -/
def htmlSafeSet (b : Fin 256) : Bool :=
  decide (0x20 ≤ b.val) && decide (b.val < 0x80) && !(b = 0x22) && !(b = 0x26)
    && !(b = 0x3C) && !(b = 0x3E) && !(b = 0x5C)

/-- One iteration of the loop of `(*encodeState).string` on the non-empty
string `b :: rest`: the bytes it writes and the number of bytes of the input
it consumes.  (The Go loop copies runs of unescaped bytes in one write; the
bytes written are the same.) -/
def stringStep (b : Fin 256) (rest : GoString) : GoString × Nat :=
  if b.val < 0x80 then
    if htmlSafeSet b then ([b], 1)
    else if b = 0x5C ∨ b = 0x22 then ([0x5C, b], 1)
    else if b = 0x0A then (ascii "\\n", 1)
    else if b = 0x0D then (ascii "\\r", 1)
    else if b = 0x09 then (ascii "\\t", 1)
    else (ascii "\\u00" ++ [hex (b.val / 16), hex (b.val % 16)], 1)
  else
    let d := DecodeRuneInString (b :: rest)
    if d.1 = RuneError ∧ d.2 = 1 then (ascii "\\ufffd", 1)
    else if d.1 = 0x2028 ∨ d.1 = 0x2029 then (ascii "\\u202" ++ [hex (d.1 % 16)], d.2)
    else ((b :: rest).take d.2, d.2)

/-- The loop of `(*encodeState).string`, with the string length as fuel. -/
def stringLoop : Nat → GoString → GoString
  | _, [] => []
  | 0, _ :: _ => []
  | n + 1, b :: rest =>
    (stringStep b rest).1 ++ stringLoop n (rest.drop ((stringStep b rest).2 - 1))

/-- The loop of `(*encodeState).string` run over all of `s`. -/
def stringBody (s : GoString) : GoString := stringLoop s.length s

/-- Go's `(*encodeState).string(s, escapeHTML = true)`: `s` as a JSON string
literal. -/
def encodeString (s : GoString) : GoString :=
  [0x22] ++ stringBody s ++ [0x22]


/-! ## `strconv`: integers -/

/-- Decimal digits of `n`, most significant digit first, as `strconv`
writes them; the first argument bounds the number of digits. -/
def formatBits : Nat → Nat → GoString
  | 0, _ => []
  | f + 1, n =>
    if n < 10 then [Fin.ofNat (0x30 + n)]
    else formatBits f (n / 10) ++ [Fin.ofNat (0x30 + n % 10)]

/-- Go's `strconv.FormatInt(i, 10)`. -/
def FormatInt (i : Int) : GoString :=
  if i < 0 then 0x2D :: formatBits (i.natAbs + 1) i.natAbs
  else formatBits (i.natAbs + 1) i.natAbs

/-! ## `encoding/json`: structs and slices -/

/-- A struct field as `structEncoder.encode` meets it: its JSON name and its
encoded value, `none` when the field is tagged `omitempty` and holds an empty
value, so that it is skipped. -/
abbrev Field := GoString × Option GoString

/-- The loop of `structEncoder.encode` over the fields, then the closing
brace; the flag is the variable `first` of the Go code. -/
def encodeFields : Bool → List Field → GoString
  | _, [] => [0x7D]
  | fst, (_, none) :: fs => encodeFields fst fs
  | fst, (k, some v) :: fs =>
    (if fst then [] else [0x2C]) ++ encodeString k ++ [0x3A] ++ v ++ encodeFields false fs

/-- Go's `structEncoder.encode`. -/
def encodeStruct (fs : List Field) : GoString := 0x7B :: encodeFields true fs

/-- The loop of `arrayEncoder.encode` over the encoded elements, then the
closing bracket. -/
def encodeElems : Bool → List GoString → GoString
  | _, [] => [0x5D]
  | fst, v :: vs => (if fst then [] else [0x2C]) ++ v ++ encodeElems false vs

/-- Go's `arrayEncoder.encode` for a non-nil slice whose elements encode as
`vs`. -/
def encodeArray (vs : List GoString) : GoString := 0x5B :: encodeElems true vs

/-- A string field tagged `omitempty`: skipped when its length is zero. -/
def omitEmptyString (s : GoString) : Option GoString :=
  if s.length = 0 then none else some (encodeString s)

/-- An `int` field tagged `omitempty`: skipped when it is zero. -/
def omitEmptyInt (i : Int) : Option GoString :=
  if i = 0 then none else some (FormatInt i)

/-! ## `pkg/api/job_spec.go` -/

/-- The Kubernetes type `meta.OwnerReference`. -/
structure OwnerReference where
  APIVersion : GoString
  Kind : GoString
  Name : GoString
  UID : GoString
  deriving DecidableEq, Repr

/-- Go type `Pull`. -/
structure Pull where
  Number : Int
  Author : GoString
  SHA : GoString
  deriving DecidableEq, Repr

/-- Go type `Refs`.  `Pulls` is a slice; a nil slice and an empty one are the
same list. -/
structure Refs where
  Org : GoString
  Repo : GoString
  BaseRef : GoString
  BaseSHA : GoString
  Pulls : List Pull
  PathAlias : GoString
  deriving DecidableEq, Repr

/-- Go type `JobSpec`.  The field `Type` is named `Type_` here; `GracePeriod`
is a `*time.Duration`, a nullable count of nanoseconds. -/
structure JobSpec where
  Type_ : GoString
  Job : GoString
  BuildId : GoString
  ProwJobID : GoString
  Refs : Refs
  rawSpec : GoString
  Namespace : GoString
  BaseNamespace : GoString
  GracePeriod : Option Int
  owner : Option OwnerReference
  deriving DecidableEq, Repr

/-- The zero value of `Refs`. -/
def Refs.zero : Refs := ⟨[], [], [], [], [], []⟩

/-- The zero value `JobSpec{}`. -/
def JobSpec.zero : JobSpec := ⟨[], [], [], [], Refs.zero, [], [], [], none, none⟩

/-- What `json.Marshal` writes for a `Pull`. -/
def marshalPull (p : Pull) : GoString :=
  encodeStruct
    [ (ascii "number", omitEmptyInt p.Number),
      (ascii "author", omitEmptyString p.Author),
      (ascii "sha", omitEmptyString p.SHA) ]

/-- What `json.Marshal` writes for a `Refs`. -/
def marshalRefs (r : Refs) : GoString :=
  encodeStruct
    [ (ascii "org", omitEmptyString r.Org),
      (ascii "repo", omitEmptyString r.Repo),
      (ascii "base_ref", omitEmptyString r.BaseRef),
      (ascii "base_sha", omitEmptyString r.BaseSHA),
      (ascii "pulls",
        if r.Pulls.length = 0 then none else some (encodeArray (r.Pulls.map marshalPull))),
      (ascii "path_alias", omitEmptyString r.PathAlias) ]

/-- What `json.Marshal` writes for a `JobSpec`: the exported fields in
declaration order.  `omitempty` has no effect on the struct-typed `Refs`;
the untagged fields are written under their Go names; the unexported
`rawSpec` and `owner` are not written. -/
def marshalJobSpec (s : JobSpec) : GoString :=
  encodeStruct
    [ (ascii "type", omitEmptyString s.Type_),
      (ascii "job", omitEmptyString s.Job),
      (ascii "buildid", omitEmptyString s.BuildId),
      (ascii "prowjobid", omitEmptyString s.ProwJobID),
      (ascii "refs", some (marshalRefs s.Refs)),
      (ascii "Namespace", some (encodeString s.Namespace)),
      (ascii "BaseNamespace", some (encodeString s.BaseNamespace)),
      (ascii "GracePeriod",
        some (match s.GracePeriod with
              | none => ascii "null"
              | some d => FormatInt d)) ]

/-- Go type `InputDefinition`, a slice of strings. -/
abbrev InputDefinition := List GoString

/-- Method `(*JobSpec).RawSpec`. -/
def JobSpec.RawSpec (s : JobSpec) : GoString := s.rawSpec

/-- Method `(*JobSpec).Owner`. -/
def JobSpec.Owner (s : JobSpec) : Option OwnerReference := s.owner

/-- Method `(*JobSpec).SetOwner`; the updated receiver is returned. -/
def JobSpec.SetOwner (s : JobSpec) (owner : Option OwnerReference) : JobSpec :=
  { s with owner := owner }

/-- Method `(*JobSpec).Inputs`: the marshalled form of a fresh `JobSpec` that
carries only the receiver's `Refs`.  Marshalling these types cannot fail, so
the `panic` branch is not reachable. -/
def JobSpec.Inputs (s : JobSpec) : InputDefinition :=
  let spec : JobSpec := { JobSpec.zero with Refs := s.Refs }
  let raw := marshalJobSpec spec
  [raw]

/-- Function `ResolveSpecFromEnv`.  `LookupEnv` is `os.LookupEnv` on the
process environment and `Unmarshal` is `json.Unmarshal` into a `*JobSpec`
that starts as the zero value; Go's `(nil, err)` is `Except.error err`. -/
def ResolveSpecFromEnv (LookupEnv : GoString → Option GoString)
    (Unmarshal : GoString → JobSpec → Except GoString JobSpec) : Except GoString JobSpec :=
  match LookupEnv (ascii "JOB_SPEC") with
  | none => Except.error (ascii "$JOB_SPEC unset")
  | some specEnv =>
    match Unmarshal specEnv JobSpec.zero with
    | Except.error err => Except.error (ascii "malformed $JOB_SPEC: " ++ err)
    | Except.ok spec => Except.ok { spec with rawSpec := specEnv }

/-! ## Go maps -/

/-- A Go `map[string]V`: finitely many entries under distinct keys.  The
order of `entries` carries no meaning. -/
structure GoMap (V : Type) where
  entries : List (GoString × V)
  nodup : (entries.map Prod.fst).Nodup

/-- Go's `make(map[string]V)`. -/
def GoMap.make {V : Type} : GoMap V := ⟨[], List.nodup_nil⟩

/-- The keys of the map. -/
def GoMap.keys {V : Type} (m : GoMap V) : List GoString := m.entries.map Prod.fst

/-- Go's `v, ok := m[k]`. -/
def GoMap.lookup {V : Type} (m : GoMap V) (k : GoString) : Option V :=
  (m.entries.find? fun e => e.1 = k).map Prod.snd

/-- Go's `m[k] = v`. -/
def GoMap.set {V : Type} (m : GoMap V) (k : GoString) (v : V) : GoMap V :=
  ⟨(k, v) :: m.entries.filter (fun e => e.1 ≠ k), by
    rw [List.map_cons, List.nodup_cons]
    refine ⟨?_, ?_⟩
    · intro h
      obtain ⟨e, he, hk⟩ := List.mem_map.mp h
      have := (List.mem_filter.mp he).2
      simp only [ne_eq, decide_not, Bool.not_eq_eq_eq_not, Bool.not_true,
        decide_eq_false_iff_not] at this
      exact this hk
    · exact (List.Nodup.sublist (List.Sublist.map _ (List.filter_sublist _)) m.nodup)⟩

/-- The sequence in which a `for ... range` loop visits a map.  Go leaves the
order unspecified; a loop visits every entry once. -/
def RangeOrder {V : Type} (range : GoMap V → List (GoString × V)) : Prop :=
  ∀ m, (range m).Perm m.entries

/-! ## Links -/

/-- Modelled from the spec: `api.StepLink`, declared outside the two files.
A Link is a pure value identifying an artifact slot; it is either internal,
identified by a pipeline-scoped tag name, or external, identified by a
namespace, an image stream and a tag. -/
inductive StepLink where
  | internalImage (tag : GoString)
  | externalImage (ns : GoString) (name : GoString) (tag : GoString)
  deriving DecidableEq, Repr

/-- Modelled from the spec: matching of Links, declared outside the two
files.  Two Links match iff they denote the same kind and the same scoped
name. -/
def StepLink.Matches : StepLink → StepLink → Bool
  | StepLink.internalImage a, StepLink.internalImage b => decide (a = b)
  | StepLink.externalImage n1 i1 t1, StepLink.externalImage n2 i2 t2 =>
    decide (n1 = n2) && decide (i1 = i2) && decide (t1 = t2)
  | _, _ => false

/-- Modelled from the spec: `api.InternalImageLink`, declared outside the two
files; the internal Link for a pipeline-scoped tag name. -/
def InternalImageLink (ref : GoString) : StepLink := StepLink.internalImage ref

/-! ## Types of the build and image APIs used by the step -/

/-- The fields of `coreapi.ObjectReference` that the step sets. -/
structure ObjectReference where
  Kind : GoString
  Name : GoString
  deriving DecidableEq, Repr

/-- Type `buildapi.ImageSourcePath`. -/
structure ImageSourcePath where
  SourcePath : GoString
  DestinationDir : GoString
  deriving DecidableEq, Repr

/-- The fields of `buildapi.ImageSource` that the steps set. -/
structure ImageSource where
  From : ObjectReference
  As : List GoString
  Paths : List ImageSourcePath
  deriving DecidableEq, Repr

/-- The fields of `buildapi.BuildSource` that the step sets. -/
structure BuildSource where
  Type_ : GoString
  Images : List ImageSource
  deriving DecidableEq, Repr

/-- Constant `buildapi.BuildSourceImage`. -/
def BuildSourceImage : GoString := ascii "Image"

/-- Type `buildapi.ImageLabel`. -/
structure ImageLabel where
  Name : GoString
  Value : GoString
  deriving DecidableEq, Repr

/-- A `buildapi.Build` as the step handles it: `Spec.Output.ImageLabels`,
which `Run` extends, and everything else, which `Run` leaves as
`buildFromSource` returned it. -/
structure Build (B : Type) where
  body : B
  ImageLabels : List ImageLabel

/-- The part of `docker10.DockerImage` that the step reads: `Config`, a
pointer that may be nil, and in it `WorkingDir`. -/
structure DockerImage where
  Config : Option GoString

/-- The part of an `ImageStreamTag` that the step reads:
`Image.DockerImageMetadata.Raw`. -/
structure ImageStreamTag where
  Raw : GoString

/-- The part of an `ImageStream` that the step reads: the two repository
values of its `Status`. -/
structure ImageStream where
  PublicDockerImageRepository : GoString
  DockerImageRepository : GoString

/-- A lookup against the cluster made through one of the image clients. -/
inductive Lookup where
  | imageStreamTag (ns : GoString) (name : GoString)
  | imageStream (ns : GoString) (name : GoString)
  deriving DecidableEq, Repr

/-- What the step uses from outside the two files: the types, constants and
helper functions of the repository that are declared elsewhere, and the
library decoder of Docker image metadata. -/
structure Externals where
  ImageBuildInputs : Type
  ResourceConfiguration : Type
  BuildClient : Type
  BuildBody : Type
  PipelineImageStream : GoString
  PipelineImageStreamTagReferenceSource : GoString
  buildInputsFromStep : GoMap ImageBuildInputs → List ImageSource
  buildFromSource : JobSpec → GoString → GoString → BuildSource → GoString →
    ResourceConfiguration → Build BuildBody
  handleBuild : BuildClient → Build BuildBody → Bool → Option GoString
  unmarshalDockerImage : GoString → Except GoString DockerImage
  unicodeToUpper : GoString → GoString

/-- The fields of `api.ProjectDirectoryImageBuildStepConfiguration`, declared
outside the two files, that the step reads. -/
structure ProjectDirectoryImageBuildStepConfiguration (E : Externals) where
  From : GoString
  To : GoString
  ContextDir : GoString
  DockerfilePath : GoString
  Inputs : GoMap E.ImageBuildInputs

/-! ## `pkg/steps/project_image.go` -/

/-- Type `projectDirectoryImageBuildStep`.  The image clients are the replies
of the cluster to `ImageStreams(ns).Get(name)` and
`ImageStreamTags(ns).Get(name)`. -/
structure projectDirectoryImageBuildStep (E : Externals) where
  config : ProjectDirectoryImageBuildStepConfiguration E
  resources : E.ResourceConfiguration
  buildClient : E.BuildClient
  imageClient : GoString → GoString → Except GoString ImageStream
  istClient : GoString → GoString → Except GoString ImageStreamTag
  jobSpec : JobSpec

/-- The errors that `Run` returns, by the statement that creates them. -/
inductive RunError where
  | fetchSourceImageStreamTag (err : GoString)
  | fetchDockerImageMetadata (source : GoString)
  | malformedDockerImageMetadata (err : GoString)
  | handleBuild (err : GoString)
  deriving DecidableEq, Repr

/-- The text of the error. -/
def RunError.Error : RunError → GoString
  | RunError.fetchSourceImageStreamTag err =>
    ascii "could not fetch source ImageStreamTag: " ++ err
  | RunError.fetchDockerImageMetadata source =>
    ascii "could not fetch Docker image metadata for ImageStreamTag " ++ source
  | RunError.malformedDockerImageMetadata err =>
    ascii "malformed Docker image metadata on ImageStreamTag: " ++ err
  | RunError.handleBuild err => err

/-- How a call of `Run` ends. -/
inductive RunResult where
  | returned (err : Option RunError)
  | panicked
  deriving DecidableEq, Repr

/-- A call of `Run` as observed from outside: the lookups it makes through
the image clients, the build it hands to `handleBuild` if it gets there, and
how it ends. -/
structure RunOutcome (E : Externals) where
  lookups : List Lookup
  build : Option (Build E.BuildBody)
  result : RunResult

namespace projectDirectoryImageBuildStep

/-- The local `source` of `Run`. -/
def source (E : Externals) : GoString :=
  E.PipelineImageStream ++ ascii ":" ++ E.PipelineImageStreamTagReferenceSource

/-- The map `labels` that `Run` fills from the job's `Refs`. -/
def labels {E : Externals} (s : projectDirectoryImageBuildStep E) : GoMap GoString :=
  if s.jobSpec.Refs.Pulls.length = 0 then
    ((GoMap.make.set (ascii "org.opencontainers.image.source")
        (ascii "https://github.com/" ++ s.jobSpec.Refs.Org ++ ascii "/" ++ s.jobSpec.Refs.Repo)).set
      (ascii "org.opencontainers.image.revision") s.jobSpec.Refs.BaseSHA).set
      (ascii "io.openshift.build.commit.ref") s.jobSpec.Refs.BaseRef
  else
    ((GoMap.make.set (ascii "org.opencontainers.image.source") []).set
      (ascii "org.opencontainers.image.revision") []).set
      (ascii "io.openshift.build.commit.ref") []

/-- The slice `images` that `Run` builds for the working directory. -/
def images {E : Externals} (s : projectDirectoryImageBuildStep E) (workingDir : GoString) : List ImageSource :=
  let images := E.buildInputsFromStep s.config.Inputs
  if (s.config.Inputs.lookup (ascii "src")).isNone then
    images ++
      [{ From := { Kind := ascii "ImageStreamTag", Name := source E },
         As := [],
         Paths := [{ SourcePath := workingDir ++ ascii "/" ++ s.config.ContextDir ++ ascii "/.",
                     DestinationDir := ascii "." }] }]
  else images

/-- The value that `buildFromSource` returns to `Run`. -/
def sourceBuild {E : Externals} (s : projectDirectoryImageBuildStep E) (workingDir : GoString) :
    Build E.BuildBody :=
  E.buildFromSource s.jobSpec s.config.From s.config.To
    { Type_ := BuildSourceImage, Images := images s workingDir }
    s.config.DockerfilePath s.resources

/-- The part of `Run` from the map `labels` up to the call of `handleBuild`:
the build composed for the working directory, with one image label appended
for every entry that the loop over `labels` visits. -/
def composeBuild {E : Externals} (s : projectDirectoryImageBuildStep E)
    (range : GoMap GoString → List (GoString × GoString)) (workingDir : GoString) :
    Build E.BuildBody :=
  (range (labels s)).foldl
    (fun build kv => { build with ImageLabels := build.ImageLabels ++ [⟨kv.1, kv.2⟩] })
    (sourceBuild s workingDir)

/-- Method `Run`.  `range` is the order in which the loop over `labels`
visits the map. -/
def Run {E : Externals} (s : projectDirectoryImageBuildStep E)
    (range : GoMap GoString → List (GoString × GoString)) (dry : Bool) : RunOutcome E :=
  let finish := fun (lookups : List Lookup) (workingDir : GoString) =>
    let build := composeBuild s range workingDir
    { lookups := lookups, build := some build,
      result := RunResult.returned
        ((E.handleBuild s.buildClient build dry).map RunError.handleBuild) : RunOutcome E }
  if dry then finish [] (ascii "dry-fake")
  else
    let lookups := [Lookup.imageStreamTag s.jobSpec.Namespace (source E)]
    match s.istClient s.jobSpec.Namespace (source E) with
    | Except.error err =>
      ⟨lookups, none, RunResult.returned (some (RunError.fetchSourceImageStreamTag err))⟩
    | Except.ok ist =>
      if ist.Raw.length = 0 then
        ⟨lookups, none, RunResult.returned (some (RunError.fetchDockerImageMetadata (source E)))⟩
      else
        match E.unmarshalDockerImage ist.Raw with
        | Except.error err =>
          ⟨lookups, none,
            RunResult.returned (some (RunError.malformedDockerImageMetadata err))⟩
        | Except.ok metadata =>
          match metadata.Config with
          | none => ⟨lookups, none, RunResult.panicked⟩
          | some workingDir => finish lookups workingDir

/-- Method `Requires`.  `range` is the order in which the loop over
`config.Inputs` visits the map; `api.PipelineImageStreamTagReference(name)`
is a conversion between string types. -/
def Requires {E : Externals} (s : projectDirectoryImageBuildStep E)
    (range : GoMap E.ImageBuildInputs → List (GoString × E.ImageBuildInputs)) :
    List StepLink :=
  let links := [InternalImageLink E.PipelineImageStreamTagReferenceSource]
  let links := if s.config.From.length > 0 then links ++ [InternalImageLink s.config.From]
    else links
  (range s.config.Inputs).foldl (fun links kv => links ++ [InternalImageLink kv.1]) links

/-- Method `Creates`. -/
def Creates {E : Externals} (s : projectDirectoryImageBuildStep E) : List StepLink :=
  [InternalImageLink s.config.To]

/-- Go's `strings.Replace(s, old, new, -1)` for one-byte `old` and `new`. -/
def Replace (s : GoString) (old new : Fin 256) : GoString :=
  s.map fun b => if b = old then new else b

/-- Go's `strings.ToUpper`: ASCII-only strings are mapped byte by byte, any
other string goes through `unicode.ToUpper`. -/
def ToUpper (E : Externals) (s : GoString) : GoString :=
  if s.all (fun c => decide (c.val < 0x80)) then
    s.map fun c => if 0x61 ≤ c.val ∧ c.val ≤ 0x7A then c - 0x20 else c
  else E.unicodeToUpper s

/-- A call of a parameter accessor as observed from outside: the lookups it
makes, and the string and error it returns. -/
structure AccessorOutcome where
  lookups : List Lookup
  value : GoString
  err : Option GoString

/-- Type `api.ParameterMap`: parameter names with their deferred accessors. -/
abbrev ParameterMap := GoMap (Unit → AccessorOutcome)

/-- The function literal that `Provides` stores under the parameter name. -/
def localImageAccessor {E : Externals} (s : projectDirectoryImageBuildStep E) : Unit → AccessorOutcome :=
  fun _ =>
    let lookups := [Lookup.imageStream s.jobSpec.Namespace E.PipelineImageStream]
    match s.imageClient s.jobSpec.Namespace E.PipelineImageStream with
    | Except.error err =>
      ⟨lookups, [], some (ascii "could not retrieve output imagestream: " ++ err)⟩
    | Except.ok is_ =>
      if is_.PublicDockerImageRepository.length > 0 then
        ⟨lookups, is_.PublicDockerImageRepository ++ ascii ":" ++ s.config.To, none⟩
      else if is_.DockerImageRepository.length > 0 then
        ⟨lookups, is_.DockerImageRepository ++ ascii ":" ++ s.config.To, none⟩
      else
        ⟨lookups, [], some (ascii "image stream " ++ s.config.To
          ++ ascii " has no accessible image registry value")⟩

/-- A call of `Provides` as observed from outside: the lookups it makes and
the two values it returns, `none` for Go's `nil`. -/
structure ProvidesOutcome where
  lookups : List Lookup
  params : Option ParameterMap
  link : Option StepLink

/-- Method `Provides`. -/
def Provides {E : Externals} (s : projectDirectoryImageBuildStep E) : ProvidesOutcome :=
  if s.config.To.length = 0 then ⟨[], none, none⟩
  else
    ⟨[],
      some (GoMap.make.set
        (ascii "LOCAL_IMAGE_" ++ ToUpper E (Replace s.config.To 0x2D 0x5F))
        (localImageAccessor s)),
      some (InternalImageLink s.config.To)⟩

end projectDirectoryImageBuildStep

/-! ## Auxiliary definitions for the proofs -/

/-- Width of the encoding announced by a lead byte. -/
def width (b : Fin 256) : Nat :=
  if b.val < 0x80 then 1
  else match first b.val with
    | none => 1
    | some (sz, _, _) => sz

/-- The head of `b :: rest` decodes to something other than the error result
`(RuneError, 1)`. -/
def ValidHead (b : Fin 256) (rest : GoString) : Prop :=
  ¬ ((DecodeRuneInString (b :: rest)).1 = RuneError ∧ (DecodeRuneInString (b :: rest)).2 = 1)

/-- Value of a hexadecimal digit of the table `hex`. -/
def unhex (h : Fin 256) : Nat := (ascii "0123456789abcdef").indexOf h

/-- Reads back the first chunk written by `stringStep`: the input bytes it
stands for and the output after it. -/
def unstep (z : GoString) : GoString × GoString :=
  match z with
  | [] => ([], [])
  | c :: z1 =>
    if c = 0x5C then
      match z1 with
      | [] => ([], [])
      | e :: z2 =>
        if e = 0x75 then
          match z2 with
          | a :: _ :: h1 :: h2 :: z3 =>
            if a = 0x32 then ([0xE2, 0x80, Fin.ofNat (0xA0 + unhex h2)], z3)
            else ([Fin.ofNat (16 * unhex h1 + unhex h2)], z3)
          | _ => ([], [])
        else if e = 0x6E then ([0x0A], z2)
        else if e = 0x72 then ([0x0D], z2)
        else if e = 0x74 then ([0x09], z2)
        else ([e], z2)
    else (z.take (width c), z.drop (width c))


/-- The byte is an ASCII decimal digit. -/
def IsDigit (c : Fin 256) : Prop := 0x30 ≤ c.val ∧ c.val ≤ 0x39

/-- Value of a sequence of decimal digits. -/
def digitsVal (l : GoString) : Nat := l.foldl (fun a d => 10 * a + (d.val - 0x30)) 0

/-- The output continues with a comma, a closing brace or a closing bracket. -/
def Delimited (x : GoString) : Prop :=
  ∃ c t, x = c :: t ∧ (c = 0x2C ∨ c = 0x7D ∨ c = 0x5D)

/-- Two encoded values can be told apart inside a JSON text: if each is
followed by a delimiter and the two outputs agree, the values agree and so
do the continuations. -/
def Sep (v1 v2 : GoString) : Prop :=
  ∀ x y, Delimited x → Delimited y → v1 ++ x = v2 ++ y → v1 = v2 ∧ x = y

/-- Both strings of the pull are valid UTF-8. -/
def validPull (p : Pull) : Bool := ValidString p.Author && ValidString p.SHA

/-- Every string held by the `Refs`, those of its pulls included, is valid
UTF-8. -/
def validRefs (r : Refs) : Bool :=
  ValidString r.Org && ValidString r.Repo && ValidString r.BaseRef && ValidString r.BaseSHA
    && r.Pulls.all validPull && ValidString r.PathAlias

/-! ## Sample values -/

/-- A presubmit job on `acme/widget` at `main`, without pulls. -/
def sampleSpec : JobSpec :=
  { Type_ := ascii "presubmit", Job := ascii "unit", BuildId := ascii "7",
    ProwJobID := ascii "e1", rawSpec := ascii "raw", Namespace := ascii "ci-op-1",
    BaseNamespace := ascii "stable", GracePeriod := some 5, owner := none,
    Refs := { Org := ascii "acme", Repo := ascii "widget", BaseRef := ascii "main",
              BaseSHA := ascii "abc123", Pulls := [], PathAlias := [] } }

/-- The same `Refs` under different job metadata and an owner. -/
def sampleSpecOther : JobSpec :=
  { sampleSpec with
    Type_ := ascii "periodic", Job := ascii "nightly", BuildId := ascii "8",
    ProwJobID := ascii "e2", rawSpec := [], Namespace := ascii "ci-op-2",
    BaseNamespace := [], GracePeriod := none,
    owner := some ⟨ascii "v1", ascii "Namespace", ascii "ci-op-2", ascii "u"⟩ }

/-- The sample job with one pull on top of the base. -/
def sampleSpecPull : JobSpec :=
  { sampleSpec with
    Refs := { sampleSpec.Refs with Pulls := [⟨12, ascii "dev", ascii "f00"⟩] } }

/-- A job whose organisation is the single byte `0xff`, not valid UTF-8. -/
def specOrgFF : JobSpec := { JobSpec.zero with Refs := { Refs.zero with Org := [0xFF] } }

/-- A job whose organisation is the single byte `0xfe`, not valid UTF-8. -/
def specOrgFE : JobSpec := { JobSpec.zero with Refs := { Refs.zero with Org := [0xFE] } }

/-- A stand-in for what lies outside the two files: the pipeline stream is
`pipeline`, its source tag `src`; builds record the arguments they were made
from and are always handled without error; the metadata decoder takes the raw
bytes as the working directory. -/
def sampleExternals : Externals :=
  { ImageBuildInputs := Unit
    ResourceConfiguration := Unit
    BuildClient := Unit
    BuildBody := GoString × GoString × BuildSource × GoString
    PipelineImageStream := ascii "pipeline"
    PipelineImageStreamTagReferenceSource := ascii "src"
    buildInputsFromStep := fun m =>
      m.entries.map fun e =>
        { From := { Kind := ascii "ImageStreamTag", Name := ascii "pipeline:" ++ e.1 },
          As := [], Paths := [] }
    buildFromSource := fun _ fromTag toTag source dockerfilePath _ =>
      { body := (fromTag, toTag, source, dockerfilePath), ImageLabels := [] }
    handleBuild := fun _ _ _ => none
    unmarshalDockerImage := fun raw => Except.ok ⟨some raw⟩
    unicodeToUpper := fun s => s }

/-- A cluster whose pipeline image stream has only an internal repository
and whose source tag carries the working directory `dry-fake`. -/
def sampleStep (config : ProjectDirectoryImageBuildStepConfiguration sampleExternals)
    (jobSpec : JobSpec) : projectDirectoryImageBuildStep sampleExternals :=
  { config := config
    resources := ()
    buildClient := ()
    imageClient := fun _ _ => Except.ok ⟨[], ascii "registry.svc:5000/ci-op-1/pipeline"⟩
    istClient := fun _ _ => Except.ok ⟨ascii "dry-fake"⟩
    jobSpec := jobSpec }

/-- Build `bin` from the repository root, without base image or inputs. -/
def configBin : ProjectDirectoryImageBuildStepConfiguration sampleExternals :=
  { From := [], To := ascii "bin", ContextDir := ascii "cmd", DockerfilePath := [],
    Inputs := GoMap.make }

/-- A configuration whose `To` is empty. -/
def configNoTo : ProjectDirectoryImageBuildStepConfiguration sampleExternals :=
  { From := [], To := [], ContextDir := [], DockerfilePath := [], Inputs := GoMap.make }

/-- A configuration that builds `my-app` from the base image `root` with the input
`tools`. -/
def configApp : ProjectDirectoryImageBuildStepConfiguration sampleExternals :=
  { From := ascii "root", To := ascii "my-app", ContextDir := [], DockerfilePath := [],
    Inputs := GoMap.make.set (ascii "tools") () }

/-- A configuration whose base image is the pipeline source tag itself. -/
def configFromSrc : ProjectDirectoryImageBuildStepConfiguration sampleExternals :=
  { From := ascii "src", To := ascii "bin", ContextDir := [], DockerfilePath := [],
    Inputs := GoMap.make }

/-- A configuration that declares the pipeline source tag `src` as an input. -/
def configSrcInput : ProjectDirectoryImageBuildStepConfiguration sampleExternals :=
  { From := [], To := ascii "bin", ContextDir := ascii "cmd", DockerfilePath := [],
    Inputs := GoMap.make.set (ascii "src") () }

/-- A loop order: the entries as the map holds them. -/
def rangeEntries {V : Type} (m : GoMap V) : List (GoString × V) := m.entries

/-- Another loop order: the entries from last to first. -/
def rangeReversed {V : Type} (m : GoMap V) : List (GoString × V) := m.entries.reverse

/-! ## Theorems -/

theorem first_cases (s0 : Nat) :
    first s0 = none
    ∨ (first s0 = some (2, 0x80, 0xBF) ∧ 0xC2 ≤ s0 ∧ s0 < 0xE0)
    ∨ (first s0 = some (3, 0xA0, 0xBF) ∧ s0 = 0xE0)
    ∨ (first s0 = some (3, 0x80, 0x9F) ∧ s0 = 0xED)
    ∨ (first s0 = some (3, 0x80, 0xBF) ∧ 0xE1 ≤ s0 ∧ s0 < 0xF0)
    ∨ (first s0 = some (4, 0x90, 0xBF) ∧ s0 = 0xF0)
    ∨ (first s0 = some (4, 0x80, 0xBF) ∧ 0xF1 ≤ s0 ∧ s0 < 0xF4)
    ∨ (first s0 = some (4, 0x80, 0x8F) ∧ s0 = 0xF4) := by
  unfold first
  split_ifs <;> simp <;> omega

/-- The possible results of decoding at a lead byte that is not ASCII. -/
theorem decode_cases (b : Fin 256) (rest : GoString) (h1 : ¬ b.val < 0x80) :
    ∀ d, DecodeRuneInString (b :: rest) = d →
    d = (RuneError, 1)
    ∨ (∃ s1 t, rest = s1 :: t ∧ width b = 2 ∧ 0xC2 ≤ b.val ∧ b.val < 0xE0
        ∧ 0x80 ≤ s1.val ∧ s1.val ≤ 0xBF
        ∧ d = ((b.val % 32) * 64 + s1.val % 64, 2))
    ∨ (∃ s1 s2 t, rest = s1 :: s2 :: t ∧ width b = 3 ∧ 0xE0 ≤ b.val ∧ b.val < 0xF0
        ∧ 0x80 ≤ s1.val ∧ s1.val ≤ 0xBF ∧ 0x80 ≤ s2.val ∧ s2.val ≤ 0xBF
        ∧ (b.val = 0xE0 → 0xA0 ≤ s1.val)
        ∧ d = ((b.val % 16) * 4096 + (s1.val % 64) * 64 + s2.val % 64, 3))
    ∨ (∃ s1 s2 s3 t, rest = s1 :: s2 :: s3 :: t ∧ width b = 4 ∧ 0xF0 ≤ b.val ∧ b.val ≤ 0xF4
        ∧ 0x80 ≤ s1.val ∧ s1.val ≤ 0xBF ∧ 0x80 ≤ s2.val ∧ s2.val ≤ 0xBF
        ∧ 0x80 ≤ s3.val ∧ s3.val ≤ 0xBF
        ∧ (b.val = 0xF0 → 0x90 ≤ s1.val)
        ∧ d = ((b.val % 8) * 262144 + (s1.val % 64) * 4096 + (s2.val % 64) * 64
                + s3.val % 64, 4)) := by
  intro d hd
  simp only [DecodeRuneInString, h1, if_false] at hd
  have hw : width b = match first b.val with | none => 1 | some (sz, _, _) => sz := by
    simp only [width, h1, if_false]
  rcases first_cases b.val with hf | ⟨hf, hb⟩ | ⟨hf, hb⟩ | ⟨hf, hb⟩ | ⟨hf, hb⟩ | ⟨hf, hb⟩
    | ⟨hf, hb⟩ | ⟨hf, hb⟩
  all_goals rw [hf] at hd hw
  all_goals simp only [] at hd hw
  all_goals rcases rest with _ | ⟨s1, _ | ⟨s2, _ | ⟨s3, t3⟩⟩⟩
  all_goals try simp at hd
  all_goals try split_ifs at hd
  all_goals subst hd
  all_goals first
    | (left; rfl)
    | (right; left; exact ⟨_, _, rfl, hw, by omega, by omega, by omega, by omega, rfl⟩)
    | (right; right; left; exact ⟨_, _, _, rfl, hw, by omega, by omega, by omega, by omega, by omega, by omega, by omega, rfl⟩)
    | (right; right; right; exact ⟨_, _, _, _, rfl, hw, by omega, by omega, by omega, by omega, by omega, by omega, by omega, by omega, by omega, rfl⟩)


theorem hex_unhex : ∀ b : Fin 256,
    (Fin.ofNat (16 * unhex (hex (b.val / 16)) + unhex (hex (b.val % 16))) : Fin 256) = b := by
  decide


theorem htmlSafeSet_ne {b : Fin 256} (h : htmlSafeSet b = true) : b ≠ 0x5C ∧ b ≠ 0x22 := by
  revert b; decide


theorem decode_ascii (b : Fin 256) (rest : GoString) (h1 : b.val < 0x80) :
    DecodeRuneInString (b :: rest) = (b.val, 1) := by
  simp [DecodeRuneInString, h1]

theorem decode_size (b : Fin 256) (rest : GoString) :
    1 ≤ (DecodeRuneInString (b :: rest)).2
    ∧ (DecodeRuneInString (b :: rest)).2 ≤ (b :: rest).length := by
  by_cases h1 : b.val < 0x80
  · rw [decode_ascii b rest h1]; simp
  · rcases decode_cases b rest h1 _ rfl with h | ⟨s1, t, hr, _, _, _, _, _, h⟩
      | ⟨s1, s2, t, hr, _, _, _, _, _, _, _, _, h⟩
      | ⟨s1, s2, s3, t, hr, _, _, _, _, _, _, _, _, _, _, h⟩
    all_goals rw [h]
    all_goals try subst hr
    all_goals simp

theorem step_size (b : Fin 256) (rest : GoString) :
    1 ≤ (stringStep b rest).2 ∧ (stringStep b rest).2 ≤ (b :: rest).length := by
  have hd := decode_size b rest
  simp only [List.length_cons] at hd
  simp only [stringStep]
  split_ifs <;> simp only [List.length_cons] <;> omega

theorem step_head (b : Fin 256) (rest : GoString) :
    ∃ c t, (stringStep b rest).1 = c :: t ∧ c ≠ 0x22 := by
  simp only [stringStep]
  split_ifs with h1 h2 h3 h4 h5 h6 h7 h8
  · exact ⟨b, [], rfl, (htmlSafeSet_ne h2).2⟩
  · exact ⟨0x5C, [b], rfl, by decide⟩
  · exact ⟨0x5C, _, rfl, by decide⟩
  · exact ⟨0x5C, _, rfl, by decide⟩
  · exact ⟨0x5C, _, rfl, by decide⟩
  · exact ⟨0x5C, _, rfl, by decide⟩
  · exact ⟨0x5C, _, rfl, by decide⟩
  · exact ⟨0x5C, _, rfl, by decide⟩
  · have hd := decode_size b rest
    refine ⟨b, rest.take ((DecodeRuneInString (b :: rest)).2 - 1), ?_, ?_⟩
    · obtain ⟨k, hk⟩ : ∃ k, (DecodeRuneInString (b :: rest)).2 = k + 1 :=
        ⟨_, (Nat.sub_add_cancel hd.1).symm⟩
      simp [hk]
    · intro hb; apply h1; rw [hb]; decide

theorem unstep_step (b : Fin 256) (rest x : GoString) (hv : ValidHead b rest) :
    unstep ((stringStep b rest).1 ++ x) = ((b :: rest).take (stringStep b rest).2, x) := by
  by_cases h1 : b.val < 0x80
  · simp only [stringStep, h1, if_true]
    split_ifs with h2 h3 h4 h5 h6
    · have hb := (htmlSafeSet_ne h2).1
      simp [unstep, hb, width, h1]
    · rcases h3 with h3 | h3 <;> subst h3 <;> rfl
    · subst h4; rfl
    · subst h5; rfl
    · subst h6; rfl
    · have := hex_unhex b
      show unstep (0x5C :: 0x75 :: 0x30 :: 0x30 :: hex (b.val / 16) :: hex (b.val % 16) :: x) = _
      simp [unstep, this]
  · have hb : b ≠ 0x5C := by intro hb; apply h1; rw [hb]; decide
    have hu : ∀ z, unstep (b :: z) = ((b :: z).take (width b), (b :: z).drop (width b)) := by
      intro z; simp [unstep, hb]
    rcases decode_cases b rest h1 _ rfl with h | ⟨s1, t, hr, hw, _, _, _, _, h⟩
      | ⟨s1, s2, t, hr, hw, _, _, _, _, _, _, _, h⟩
      | ⟨s1, s2, s3, t, hr, hw, _, _, _, _, _, _, _, _, _, h⟩
    · exact absurd (by rw [h]; exact ⟨rfl, rfl⟩) hv
    · subst hr
      have hs : stringStep b (s1 :: t) = ([b, s1], 2) := by
        simp only [stringStep, h1, if_false, h, RuneError]
        rw [if_neg (by omega), if_neg (by omega)]
        rfl
      rw [hs]
      show unstep (b :: ([s1] ++ x)) = _
      rw [hu, hw]; rfl
    · subst hr
      by_cases hc : (b.val % 16) * 4096 + (s1.val % 64) * 64 + s2.val % 64 = 0x2028
                  ∨ (b.val % 16) * 4096 + (s1.val % 64) * 64 + s2.val % 64 = 0x2029
      · have hs : stringStep b (s1 :: s2 :: t)
            = (ascii "\\u202" ++ [hex (((b.val % 16) * 4096 + (s1.val % 64) * 64
                + s2.val % 64) % 16)], 3) := by
          simp only [stringStep, h1, if_false, h, RuneError]
          rw [if_neg (by omega), if_pos hc]
        rw [hs]
        have hb2 : b = 0xE2 := Fin.ext (by show b.val = 0xE2; omega)
        have hs1 : s1 = 0x80 := Fin.ext (by show s1.val = 0x80; omega)
        have hs2 : s2 = 0xA8 ∨ s2 = 0xA9 := by
          rcases hc with hc | hc
          · left; exact Fin.ext (by show s2.val = 0xA8; omega)
          · right; exact Fin.ext (by show s2.val = 0xA9; omega)
        subst hb2 hs1
        rcases hs2 with hs2 | hs2 <;> subst hs2 <;> rfl
      · have hs : stringStep b (s1 :: s2 :: t) = ([b, s1, s2], 3) := by
          simp only [stringStep, h1, if_false, h, RuneError]
          rw [if_neg (by omega), if_neg hc]
          rfl
        rw [hs]
        show unstep (b :: ([s1, s2] ++ x)) = _
        rw [hu, hw]; rfl
    · subst hr
      have hs : stringStep b (s1 :: s2 :: s3 :: t) = ([b, s1, s2, s3], 4) := by
        simp only [stringStep, h1, if_false, h, RuneError]
        rw [if_neg (by omega), if_neg (by omega)]
        rfl
      rw [hs]
      show unstep (b :: ([s1, s2, s3] ++ x)) = _
      rw [hu, hw]; rfl

theorem stringLoop_fuel (n m : Nat) (s : GoString) (hn : s.length ≤ n) (hm : s.length ≤ m) :
    stringLoop n s = stringLoop m s := by
  induction n generalizing m s with
  | zero =>
    cases s with
    | nil => cases m <;> rfl
    | cons b rest => simp at hn
  | succ n ih =>
    cases s with
    | nil => cases m <;> rfl
    | cons b rest =>
      cases m with
      | zero => simp at hm
      | succ m =>
        simp only [stringLoop]
        simp only [List.length_cons] at hn hm
        rw [ih m _ (by simp; omega) (by simp; omega)]

theorem validLoop_fuel (n m : Nat) (s : GoString) (hn : s.length ≤ n) (hm : s.length ≤ m) :
    validLoop n s = validLoop m s := by
  induction n generalizing m s with
  | zero =>
    cases s with
    | nil => cases m <;> rfl
    | cons b rest => simp at hn
  | succ n ih =>
    cases s with
    | nil => cases m <;> rfl
    | cons b rest =>
      cases m with
      | zero => simp at hm
      | succ m =>
        simp only [validLoop]
        simp only [List.length_cons] at hn hm
        rw [ih m _ (by simp; omega) (by simp; omega)]

theorem stringBody_nil : stringBody [] = [] := rfl

theorem stringBody_cons (b : Fin 256) (rest : GoString) :
    stringBody (b :: rest)
      = (stringStep b rest).1 ++ stringBody (rest.drop ((stringStep b rest).2 - 1)) := by
  simp only [stringBody, List.length_cons, stringLoop]
  rw [stringLoop_fuel rest.length _ _ (by simp) (le_refl _)]

theorem validString_cons (b : Fin 256) (rest : GoString) :
    ValidString (b :: rest) = true
      ↔ ValidHead b rest ∧ ValidString (rest.drop ((DecodeRuneInString (b :: rest)).2 - 1)) = true := by
  simp only [ValidString, List.length_cons, validLoop, ValidHead]
  rw [validLoop_fuel rest.length _ _ (by simp) (le_refl _)]
  split_ifs with h <;> simp [h]

theorem step_size_eq (b : Fin 256) (rest : GoString) (hv : ValidHead b rest) :
    (stringStep b rest).2 = (DecodeRuneInString (b :: rest)).2 := by
  by_cases h1 : b.val < 0x80
  · rw [decode_ascii b rest h1]
    simp only [stringStep, h1, if_true]
    split_ifs <;> rfl
  · simp only [stringStep, h1, if_false]
    rw [if_neg hv]
    split_ifs <;> rfl

/-- The string loop is uniquely decodable up to the closing quote: two valid
strings whose escaped bodies, each followed by a quote, agree on a common
output have the same bytes. -/
theorem stringBody_sep (n : Nat) : ∀ (s s' x y : GoString), s.length ≤ n →
    ValidString s = true → ValidString s' = true →
    stringBody s ++ 0x22 :: x = stringBody s' ++ 0x22 :: y → s = s' ∧ x = y := by
  induction n with
  | zero =>
    intro s s' x y hn hs hs' h
    have : s = [] := List.length_eq_zero.mp (Nat.le_zero.mp hn)
    subst this
    cases s' with
    | nil => simpa [stringBody_nil] using h
    | cons b' r' =>
      rw [stringBody_cons, stringBody_nil] at h
      obtain ⟨c, t, hc, hne⟩ := step_head b' r'
      rw [hc] at h
      simp at h
      exact absurd h.1.symm hne
  | succ n ih =>
    intro s s' x y hn hs hs' h
    cases s with
    | nil =>
      cases s' with
      | nil => simpa [stringBody_nil] using h
      | cons b' r' =>
        rw [stringBody_cons, stringBody_nil] at h
        obtain ⟨c, t, hc, hne⟩ := step_head b' r'
        rw [hc] at h
        simp at h
        exact absurd h.1.symm hne
    | cons b r =>
      cases s' with
      | nil =>
        rw [stringBody_cons, stringBody_nil] at h
        obtain ⟨c, t, hc, hne⟩ := step_head b r
        rw [hc] at h
        simp at h
        exact absurd h.1 hne
      | cons b' r' =>
        rw [validString_cons] at hs hs'
        rw [stringBody_cons, stringBody_cons, List.append_assoc, List.append_assoc] at h
        have hu := congrArg unstep h
        rw [unstep_step b r _ hs.1, unstep_step b' r' _ hs'.1] at hu
        have htake := (Prod.mk.inj hu).1
        have htail := (Prod.mk.inj hu).2
        have hsz := step_size b r
        have hsz' := step_size b' r'
        have hlen := congrArg List.length htake
        simp only [List.length_take, List.length_cons] at hlen hsz hsz' hn
        have hsize : (stringStep b r).2 = (stringStep b' r').2 := by omega
        rw [← step_size_eq b r hs.1] at hs
        rw [← step_size_eq b' r' hs'.1] at hs'
        obtain ⟨hdrop, hxy⟩ := ih _ _ x y (by simp; omega) hs.2 hs'.2 htail
        refine ⟨?_, hxy⟩
        have e1 : b :: r = (b :: r).take (stringStep b r).2 ++ r.drop ((stringStep b r).2 - 1) := by
          obtain ⟨k, hk⟩ : ∃ k, (stringStep b r).2 = k + 1 := ⟨_, (Nat.sub_add_cancel hsz.1).symm⟩
          rw [hk]; simp
        have e2 : b' :: r' = (b' :: r').take (stringStep b' r').2
            ++ r'.drop ((stringStep b' r').2 - 1) := by
          obtain ⟨k, hk⟩ : ∃ k, (stringStep b' r').2 = k + 1 :=
            ⟨_, (Nat.sub_add_cancel hsz'.1).symm⟩
          rw [hk]; simp
        rw [e1, e2, htake, hdrop]

/-- Quoted strings are uniquely decodable: valid strings whose JSON literals
agree as prefixes of a common output are equal, and so are the continuations. -/
theorem encodeString_sep (s s' x y : GoString) (hs : ValidString s = true)
    (hs' : ValidString s' = true) (h : encodeString s ++ x = encodeString s' ++ y) :
    s = s' ∧ x = y := by
  simp only [encodeString, List.append_assoc, List.cons_append, List.nil_append,
    List.singleton_append, List.cons.injEq, true_and] at h
  exact stringBody_sep s.length s s' x y (le_refl _) hs hs' h

theorem formatBits_spec (f n : Nat) (h : n < f) :
    digitsVal (formatBits f n) = n ∧ (∀ c ∈ formatBits f n, IsDigit c)
      ∧ formatBits f n ≠ [] := by
  induction f generalizing n with
  | zero => omega
  | succ f ih =>
    simp only [formatBits]
    split_ifs with h10
    · refine ⟨?_, ?_, by simp⟩
      · simp only [digitsVal, List.foldl, Fin.ofNat, Nat.zero_add]
        omega
      · intro c hc
        simp only [List.mem_singleton] at hc
        subst hc
        simp only [IsDigit, Fin.ofNat]
        omega
    · obtain ⟨hv, hd, _⟩ := ih (n / 10) (by omega)
      refine ⟨?_, ?_, by simp⟩
      · simp only [digitsVal, List.foldl_append, List.foldl] at hv ⊢
        rw [hv]
        simp only [Fin.ofNat]
        omega
      · intro c hc
        rcases List.mem_append.mp hc with hc | hc
        · exact hd c hc
        · simp only [List.mem_singleton] at hc
          subst hc
          simp only [IsDigit, Fin.ofNat]
          omega

theorem digits_sep : ∀ (l1 l2 x y : GoString), (∀ c ∈ l1, IsDigit c) → (∀ c ∈ l2, IsDigit c) →
    (∀ c t, x = c :: t → ¬ IsDigit c) → (∀ c t, y = c :: t → ¬ IsDigit c) →
    x ≠ [] → y ≠ [] → l1 ++ x = l2 ++ y → l1 = l2 ∧ x = y := by
  intro l1
  induction l1 with
  | nil =>
    intro l2 x y _ h2 hx _ _ _ h
    cases l2 with
    | nil => exact ⟨rfl, by simpa using h⟩
    | cons c t =>
      simp only [List.nil_append, List.cons_append] at h
      exact absurd (h2 c (by simp)) (hx c _ h)
  | cons a l1 ih =>
    intro l2 x y h1 h2 hx hy hxe hye h
    cases l2 with
    | nil =>
      simp only [List.nil_append, List.cons_append] at h
      exact absurd (h1 a (by simp)) (hy a _ h.symm)
    | cons c t =>
      simp only [List.cons_append, List.cons.injEq] at h
      obtain ⟨hl, hxy⟩ := ih t x y (fun c hc => h1 c (by simp [hc]))
        (fun c hc => h2 c (by simp [hc])) hx hy hxe hye h.2
      exact ⟨by rw [h.1, hl], hxy⟩

theorem delimited_not_digit {x : GoString} (hx : Delimited x) :
    (∀ c t, x = c :: t → ¬ IsDigit c) ∧ x ≠ [] := by
  obtain ⟨c, t, rfl, hc⟩ := hx
  refine ⟨?_, by simp⟩
  intro c' t' h
  simp only [List.cons.injEq] at h
  rw [← h.1]
  rcases hc with hc | hc | hc <;> subst hc <;> unfold IsDigit <;> decide

theorem delimited_not_minus {x : GoString} (hx : Delimited x) : ∀ t, x ≠ 0x2D :: t := by
  obtain ⟨c, t, rfl, hc⟩ := hx
  intro t' h
  simp only [List.cons.injEq] at h
  rcases hc with hc | hc | hc <;> rw [hc] at h <;> exact absurd h.1 (by decide)

theorem formatInt_sep (a b : Int) : Sep (FormatInt a) (FormatInt b) := by
  intro x y hx hy h
  have ha := formatBits_spec (a.natAbs + 1) a.natAbs (by omega)
  have hb := formatBits_spec (b.natAbs + 1) b.natAbs (by omega)
  have hnd : ¬ IsDigit (0x2D : Fin 256) := by unfold IsDigit; decide
  have key : ∀ l1 l2, (∀ c ∈ l1, IsDigit c) → (∀ c ∈ l2, IsDigit c) →
      l1 ++ x = l2 ++ y → l1 = l2 ∧ x = y := fun l1 l2 h1 h2 h =>
    digits_sep l1 l2 x y h1 h2 (delimited_not_digit hx).1 (delimited_not_digit hy).1
      (delimited_not_digit hx).2 (delimited_not_digit hy).2 h
  simp only [FormatInt] at h ⊢
  split_ifs at h ⊢ with h1 h2 h2
  · simp only [List.cons_append, List.cons.injEq, true_and] at h
    obtain ⟨hl, hxy⟩ := key _ _ ha.2.1 hb.2.1 h
    have := congrArg digitsVal hl
    rw [ha.1, hb.1] at this
    refine ⟨?_, hxy⟩
    have : a = b := by omega
    rw [this]
  · exfalso
    obtain ⟨c, t, hct⟩ := List.exists_cons_of_ne_nil hb.2.2
    rw [hct] at h
    simp only [List.cons_append, List.cons.injEq] at h
    exact hnd (h.1 ▸ hb.2.1 c (by rw [hct]; simp))
  · exfalso
    obtain ⟨c, t, hct⟩ := List.exists_cons_of_ne_nil ha.2.2
    rw [hct] at h
    simp only [List.cons_append, List.cons.injEq] at h
    exact hnd (h.1 ▸ ha.2.1 c (by rw [hct]; simp))
  · obtain ⟨hl, hxy⟩ := key _ _ ha.2.1 hb.2.1 h
    have := congrArg digitsVal hl
    rw [ha.1, hb.1] at this
    refine ⟨?_, hxy⟩
    have : a = b := by omega
    rw [this]

theorem encodeFields_head (fs : List Field) (fst : Bool) (x : GoString) :
    encodeFields fst fs ++ x = 0x7D :: x
    ∨ ∃ k rest, k ∈ fs.map Prod.fst
        ∧ encodeFields fst fs ++ x
            = (if fst then [] else [0x2C]) ++ (encodeString k ++ 0x3A :: rest) := by
  induction fs with
  | nil => left; rfl
  | cons f fs ih =>
    obtain ⟨k, v⟩ := f
    cases v with
    | none =>
      rcases ih with h | ⟨k', rest, hk, h⟩
      · left; simpa [encodeFields] using h
      · right; exact ⟨k', rest, by simp [hk], by simpa [encodeFields] using h⟩
    | some v =>
      right
      exact ⟨k, v ++ encodeFields false fs ++ x, by simp, by simp [encodeFields]⟩

theorem encodeFields_delimited (fs : List Field) (x : GoString) :
    Delimited (encodeFields false fs ++ x) := by
  rcases encodeFields_head fs false x with h | ⟨k, rest, _, h⟩
  · exact ⟨0x7D, x, h, by simp⟩
  · exact ⟨0x2C, _, by rw [h]; rfl, by simp⟩

/-- Struct encodings are uniquely decodable: two field lists over the same
distinct, valid names whose present values can be told apart, and whose
encodings agree as prefixes of a common text, are equal. -/
theorem encodeFields_sep : ∀ (fs1 fs2 : List Field),
    fs1.map Prod.fst = fs2.map Prod.fst →
    (∀ k ∈ fs1.map Prod.fst, ValidString k = true) →
    (fs1.map Prod.fst).Nodup →
    List.Forall₂ (fun f1 f2 : Field => ∀ v1 v2, f1.2 = some v1 → f2.2 = some v2 → Sep v1 v2)
      fs1 fs2 →
    ∀ (fst : Bool) (x y : GoString),
      encodeFields fst fs1 ++ x = encodeFields fst fs2 ++ y → fs1 = fs2 ∧ x = y := by
  intro fs1
  induction fs1 with
  | nil =>
    intro fs2 hk _ _ _ fst x y h
    cases fs2 with
    | nil => exact ⟨rfl, by simpa [encodeFields] using h⟩
    | cons f t => simp at hk
  | cons f1 t1 ih =>
    intro fs2 hk hv hn hsep fst x y h
    cases fs2 with
    | nil => simp at hk
    | cons f2 t2 =>
      obtain ⟨k1, o1⟩ := f1
      obtain ⟨k2, o2⟩ := f2
      simp only [List.map_cons, List.cons.injEq] at hk
      obtain ⟨hk12, hkt⟩ := hk
      subst hk12
      have hvt : ∀ k ∈ t1.map Prod.fst, ValidString k = true :=
        fun k hk => hv k (by simp only [List.map_cons, List.mem_cons]; exact Or.inr hk)
      have hvk : ValidString k1 = true := hv k1 (by simp)
      simp only [List.map_cons, List.nodup_cons] at hn
      obtain ⟨hnk, hnt⟩ := hn
      cases hsep with
      | cons hs hsept =>
      have mismatch : ∀ (v : GoString) (ta tb : List Field) (xa xb : GoString),
          k1 ∉ tb.map Prod.fst → (∀ k ∈ tb.map Prod.fst, ValidString k = true) →
          (if fst then [] else [0x2C]) ++ encodeString k1 ++ [0x3A] ++ v
              ++ encodeFields false ta ++ xa = encodeFields fst tb ++ xb → False := by
        intro v ta tb xa xb hkn hvb hh
        rcases encodeFields_head tb fst xb with e | ⟨k', rest, hk', e⟩
        · rw [e] at hh
          cases fst <;> simp [encodeString] at hh
        · rw [e] at hh
          simp only [List.append_assoc] at hh
          have hh2 := List.append_cancel_left hh
          have := (encodeString_sep k1 k' _ _ hvk (hvb k' hk') hh2).1
          exact hkn (this ▸ hk')
      cases o1 with
      | none =>
        cases o2 with
        | none =>
          simp only [encodeFields] at h
          obtain ⟨ht, hxy⟩ := ih t2 hkt hvt hnt hsept fst x y h
          exact ⟨by rw [ht], hxy⟩
        | some v2 =>
          exfalso
          simp only [encodeFields] at h
          exact mismatch v2 t2 t1 y x hnk hvt h.symm
      | some v1 =>
        cases o2 with
        | none =>
          exfalso
          simp only [encodeFields] at h
          exact mismatch v1 t1 t2 x y (hkt ▸ hnk) (hkt ▸ hvt) h
        | some v2 =>
          simp only [encodeFields, List.append_assoc] at h
          have h2 := List.append_cancel_left (List.append_cancel_left h)
          simp only [List.singleton_append, List.cons.injEq, true_and] at h2
          obtain ⟨hv12, hrest⟩ := hs v1 v2 rfl rfl _ _ (encodeFields_delimited t1 x)
            (encodeFields_delimited t2 y) h2
          obtain ⟨ht, hxy⟩ := ih t2 hkt hvt hnt hsept false x y hrest
          exact ⟨by rw [hv12, ht], hxy⟩

theorem encodeStruct_sep (fs1 fs2 : List Field)
    (hk : fs1.map Prod.fst = fs2.map Prod.fst)
    (hv : ∀ k ∈ fs1.map Prod.fst, ValidString k = true)
    (hn : (fs1.map Prod.fst).Nodup)
    (hsep : List.Forall₂
      (fun f1 f2 : Field => ∀ v1 v2, f1.2 = some v1 → f2.2 = some v2 → Sep v1 v2) fs1 fs2)
    (x y : GoString) (h : encodeStruct fs1 ++ x = encodeStruct fs2 ++ y) :
    fs1 = fs2 ∧ x = y := by
  simp only [encodeStruct, List.cons_append, List.cons.injEq, true_and] at h
  exact encodeFields_sep fs1 fs2 hk hv hn hsep true x y h

theorem encodeElems_delimited (vs : List GoString) (x : GoString) :
    Delimited (encodeElems false vs ++ x) := by
  cases vs with
  | nil => exact ⟨0x5D, x, rfl, by simp⟩
  | cons v vs => exact ⟨0x2C, v ++ (encodeElems false vs ++ x), by simp [encodeElems], by simp⟩

/-- Slice encodings are uniquely decodable when any two elements can be told
apart and no element starts with a closing bracket. -/
theorem encodeElems_sep : ∀ (vs1 vs2 : List GoString),
    (∀ v1 ∈ vs1, ∀ v2 ∈ vs2, Sep v1 v2) →
    (∀ v ∈ vs1, ∃ t, v = 0x7B :: t) → (∀ v ∈ vs2, ∃ t, v = 0x7B :: t) →
    ∀ (fst : Bool) (x y : GoString),
      encodeElems fst vs1 ++ x = encodeElems fst vs2 ++ y → vs1 = vs2 ∧ x = y := by
  intro vs1
  induction vs1 with
  | nil =>
    intro vs2 _ _ h2 fst x y h
    cases vs2 with
    | nil => exact ⟨rfl, by simpa [encodeElems] using h⟩
    | cons v t =>
      exfalso
      obtain ⟨t', rfl⟩ := h2 v (by simp)
      cases fst <;> simp [encodeElems] at h
  | cons v1 t1 ih =>
    intro vs2 hs h1 h2 fst x y h
    cases vs2 with
    | nil =>
      exfalso
      obtain ⟨t', rfl⟩ := h1 v1 (by simp)
      cases fst <;> simp [encodeElems] at h
    | cons v2 t2 =>
      simp only [encodeElems, List.append_assoc] at h
      have h' := List.append_cancel_left h
      obtain ⟨hv, hrest⟩ := hs v1 (by simp) v2 (by simp) _ _ (encodeElems_delimited t1 x)
        (encodeElems_delimited t2 y) h'
      obtain ⟨ht, hxy⟩ := ih t2 (fun a ha b hb => hs a (by simp [ha]) b (by simp [hb]))
        (fun a ha => h1 a (by simp [ha])) (fun a ha => h2 a (by simp [ha])) false x y hrest
      exact ⟨by rw [hv, ht], hxy⟩

theorem sep_omitEmptyString (a a' : GoString) (ha : ValidString a = true)
    (ha' : ValidString a' = true) :
    ∀ v1 v2, omitEmptyString a = some v1 → omitEmptyString a' = some v2 → Sep v1 v2 := by
  intro v1 v2 h1 h2 x y _ _ h
  simp only [omitEmptyString] at h1 h2
  split_ifs at h1 h2
  simp only [Option.some.injEq] at h1 h2
  subst h1 h2
  obtain ⟨he, hxy⟩ := encodeString_sep a a' x y ha ha' h
  exact ⟨by rw [he], hxy⟩

theorem omitEmptyString_inj (a a' : GoString) (ha : ValidString a = true)
    (ha' : ValidString a' = true) (h : omitEmptyString a = omitEmptyString a') : a = a' := by
  simp only [omitEmptyString] at h
  split_ifs at h with h1 h2 h2
  · rw [List.length_eq_zero.mp h1, List.length_eq_zero.mp h2]
  · simp only [Option.some.injEq] at h
    exact (encodeString_sep a a' [] [] ha ha' (by rw [h])).1

theorem sep_omitEmptyInt (a a' : Int) :
    ∀ v1 v2, omitEmptyInt a = some v1 → omitEmptyInt a' = some v2 → Sep v1 v2 := by
  intro v1 v2 h1 h2
  simp only [omitEmptyInt] at h1 h2
  split_ifs at h1 h2
  simp only [Option.some.injEq] at h1 h2
  subst h1 h2
  exact formatInt_sep a a'

theorem omitEmptyInt_inj (a a' : Int) (h : omitEmptyInt a = omitEmptyInt a') : a = a' := by
  simp only [omitEmptyInt] at h
  split_ifs at h with h1 h2 h2
  · rw [h1, h2]
  · simp only [Option.some.injEq] at h
    have := formatInt_sep a a' [0x2C] [0x2C] ⟨_, _, rfl, by simp⟩ ⟨_, _, rfl, by simp⟩
      (by rw [h])
    have hd := congrArg digitsVal this.1
    have ha := formatBits_spec (a.natAbs + 1) a.natAbs (by omega)
    have hb := formatBits_spec (a'.natAbs + 1) a'.natAbs (by omega)
    have h0 := this.1
    simp only [FormatInt] at h0
    split_ifs at h0 with c1 c2 c2
    · simp only [List.cons.injEq, true_and] at h0
      have := congrArg digitsVal h0
      rw [ha.1, hb.1] at this
      omega
    · exfalso
      obtain ⟨c, t, hct⟩ := List.exists_cons_of_ne_nil hb.2.2
      rw [hct] at h0
      simp only [List.cons.injEq] at h0
      have := hb.2.1 c (by rw [hct]; simp)
      rw [← h0.1] at this
      revert this; unfold IsDigit; decide
    · exfalso
      obtain ⟨c, t, hct⟩ := List.exists_cons_of_ne_nil ha.2.2
      rw [hct] at h0
      simp only [List.cons.injEq] at h0
      have := ha.2.1 c (by rw [hct]; simp)
      rw [h0.1] at this
      revert this; unfold IsDigit; decide
    · have := congrArg digitsVal h0
      rw [ha.1, hb.1] at this
      omega

/-- Marshalled pulls are uniquely decodable. -/
theorem marshalPull_sep (p1 p2 : Pull) (h1 : validPull p1 = true) (h2 : validPull p2 = true)
    (x y : GoString) (h : marshalPull p1 ++ x = marshalPull p2 ++ y) : p1 = p2 ∧ x = y := by
  simp only [validPull, Bool.and_eq_true] at h1 h2
  have hv : ∀ k ∈ [ascii "number", ascii "author", ascii "sha"], ValidString k = true := by
    decide
  have hn : [ascii "number", ascii "author", ascii "sha"].Nodup := by decide
  obtain ⟨hf, hxy⟩ := encodeStruct_sep
    [ (ascii "number", omitEmptyInt p1.Number), (ascii "author", omitEmptyString p1.Author),
      (ascii "sha", omitEmptyString p1.SHA) ]
    [ (ascii "number", omitEmptyInt p2.Number), (ascii "author", omitEmptyString p2.Author),
      (ascii "sha", omitEmptyString p2.SHA) ]
    rfl hv hn
    (List.Forall₂.cons (sep_omitEmptyInt p1.Number p2.Number)
      (List.Forall₂.cons (sep_omitEmptyString _ _ h1.1 h2.1)
        (List.Forall₂.cons (sep_omitEmptyString _ _ h1.2 h2.2) List.Forall₂.nil)))
    x y h
  refine ⟨?_, hxy⟩
  simp only [List.cons.injEq, Prod.mk.injEq, true_and, and_true] at hf
  obtain ⟨a, b, c⟩ := hf
  cases p1; cases p2
  simp only [Pull.mk.injEq]
  exact ⟨omitEmptyInt_inj _ _ a, omitEmptyString_inj _ _ h1.1 h2.1 b,
    omitEmptyString_inj _ _ h1.2 h2.2 c⟩

theorem map_marshalPull_inj : ∀ (ps1 ps2 : List Pull), ps1.all validPull = true →
    ps2.all validPull = true → ps1.map marshalPull = ps2.map marshalPull → ps1 = ps2 := by
  intro ps1
  induction ps1 with
  | nil => intro ps2 _ _ h; cases ps2 with
    | nil => rfl
    | cons p t => simp at h
  | cons p1 t1 ih =>
    intro ps2 h1 h2 h
    cases ps2 with
    | nil => simp at h
    | cons p2 t2 =>
      simp only [List.all_cons, Bool.and_eq_true] at h1 h2
      simp only [List.map_cons, List.cons.injEq] at h
      have hp := (marshalPull_sep p1 p2 h1.1 h2.1 [] [] (by rw [h.1])).1
      rw [hp, ih t2 h1.2 h2.2 h.2]

theorem sep_pulls (ps1 ps2 : List Pull) (h1 : ps1.all validPull = true)
    (h2 : ps2.all validPull = true) :
    Sep (encodeArray (ps1.map marshalPull)) (encodeArray (ps2.map marshalPull)) := by
  intro x y _ _ h
  simp only [encodeArray, List.cons_append, List.cons.injEq, true_and] at h
  have hbrace : ∀ ps : List Pull, ∀ v ∈ ps.map marshalPull, ∃ t, v = 0x7B :: t := by
    intro ps v hv
    obtain ⟨p, _, rfl⟩ := List.mem_map.mp hv
    exact ⟨_, rfl⟩
  obtain ⟨hv, hxy⟩ := encodeElems_sep _ _ (by
      intro v1 hv1 v2 hv2 x y _ _ h
      obtain ⟨p1, hp1, rfl⟩ := List.mem_map.mp hv1
      obtain ⟨p2, hp2, rfl⟩ := List.mem_map.mp hv2
      obtain ⟨hp, hxy⟩ := marshalPull_sep p1 p2 (List.all_eq_true.mp h1 p1 hp1)
        (List.all_eq_true.mp h2 p2 hp2) x y h
      exact ⟨by rw [hp], hxy⟩) (hbrace ps1) (hbrace ps2) true x y h
  exact ⟨by rw [hv], hxy⟩

/-- Marshalled `Refs` values are uniquely decodable. -/
theorem marshalRefs_sep (r1 r2 : Refs) (h1 : validRefs r1 = true) (h2 : validRefs r2 = true)
    (x y : GoString) (h : marshalRefs r1 ++ x = marshalRefs r2 ++ y) : r1 = r2 ∧ x = y := by
  simp only [validRefs, Bool.and_eq_true] at h1 h2
  obtain ⟨⟨⟨⟨⟨o1, p1⟩, b1⟩, s1⟩, l1⟩, a1⟩ := h1
  obtain ⟨⟨⟨⟨⟨o2, p2⟩, b2⟩, s2⟩, l2⟩, a2⟩ := h2
  have hv : ∀ k ∈ [ascii "org", ascii "repo", ascii "base_ref", ascii "base_sha",
      ascii "pulls", ascii "path_alias"], ValidString k = true := by decide
  have hn : [ascii "org", ascii "repo", ascii "base_ref", ascii "base_sha",
      ascii "pulls", ascii "path_alias"].Nodup := by decide
  have hpulls : ∀ v1 v2,
      (if r1.Pulls.length = 0 then none else some (encodeArray (r1.Pulls.map marshalPull)))
        = some v1 →
      (if r2.Pulls.length = 0 then none else some (encodeArray (r2.Pulls.map marshalPull)))
        = some v2 → Sep v1 v2 := by
    intro v1 v2 e1 e2
    split_ifs at e1 e2
    simp only [Option.some.injEq] at e1 e2
    subst e1 e2
    exact sep_pulls _ _ l1 l2
  obtain ⟨hf, hxy⟩ := encodeStruct_sep
    [ (ascii "org", omitEmptyString r1.Org), (ascii "repo", omitEmptyString r1.Repo),
      (ascii "base_ref", omitEmptyString r1.BaseRef),
      (ascii "base_sha", omitEmptyString r1.BaseSHA),
      (ascii "pulls",
        if r1.Pulls.length = 0 then none else some (encodeArray (r1.Pulls.map marshalPull))),
      (ascii "path_alias", omitEmptyString r1.PathAlias) ]
    [ (ascii "org", omitEmptyString r2.Org), (ascii "repo", omitEmptyString r2.Repo),
      (ascii "base_ref", omitEmptyString r2.BaseRef),
      (ascii "base_sha", omitEmptyString r2.BaseSHA),
      (ascii "pulls",
        if r2.Pulls.length = 0 then none else some (encodeArray (r2.Pulls.map marshalPull))),
      (ascii "path_alias", omitEmptyString r2.PathAlias) ]
    rfl hv hn
    (List.Forall₂.cons (sep_omitEmptyString _ _ o1 o2)
      (List.Forall₂.cons (sep_omitEmptyString _ _ p1 p2)
        (List.Forall₂.cons (sep_omitEmptyString _ _ b1 b2)
          (List.Forall₂.cons (sep_omitEmptyString _ _ s1 s2)
            (List.Forall₂.cons hpulls
              (List.Forall₂.cons (sep_omitEmptyString _ _ a1 a2) List.Forall₂.nil))))))
    x y h
  refine ⟨?_, hxy⟩
  simp only [List.cons.injEq, Prod.mk.injEq, true_and, and_true] at hf
  obtain ⟨e1, e2, e3, e4, e5, e6⟩ := hf
  have hp : r1.Pulls = r2.Pulls := by
    split_ifs at e5 with c1 c2 c2
    · rw [List.length_eq_zero.mp c1, List.length_eq_zero.mp c2]
    · simp only [Option.some.injEq, encodeArray, List.cons.injEq, true_and] at e5
      have := (encodeElems_sep _ _ (by
        intro v1 hv1 v2 hv2 x y _ _ h
        obtain ⟨q1, hq1, rfl⟩ := List.mem_map.mp hv1
        obtain ⟨q2, hq2, rfl⟩ := List.mem_map.mp hv2
        obtain ⟨hq, hxy⟩ := marshalPull_sep q1 q2 (List.all_eq_true.mp l1 q1 hq1)
          (List.all_eq_true.mp l2 q2 hq2) x y h
        exact ⟨by rw [hq], hxy⟩)
        (by intro v hv; obtain ⟨p, _, rfl⟩ := List.mem_map.mp hv; exact ⟨_, rfl⟩)
        (by intro v hv; obtain ⟨p, _, rfl⟩ := List.mem_map.mp hv; exact ⟨_, rfl⟩)
        true [] [] (by rw [e5])).1
      exact map_marshalPull_inj _ _ l1 l2 this
  cases r1; cases r2
  simp only [Refs.mk.injEq]
  exact ⟨omitEmptyString_inj _ _ o1 o2 e1, omitEmptyString_inj _ _ p1 p2 e2,
    omitEmptyString_inj _ _ b1 b2 e3, omitEmptyString_inj _ _ s1 s2 e4, hp,
    omitEmptyString_inj _ _ a1 a2 e6⟩

/-- What `Inputs` marshals: fixed text around the marshalled `Refs`. -/
theorem inputs_shape (s : JobSpec) :
    s.Inputs = [ascii "\x7b\"refs\":" ++ (marshalRefs s.Refs
      ++ ascii ",\"Namespace\":\"\",\"BaseNamespace\":\"\",\"GracePeriod\":null\x7d")] := by
  have e1 : encodeString (ascii "refs") = ascii "\"refs\"" := by decide
  have e2 : encodeString (ascii "Namespace") = ascii "\"Namespace\"" := by decide
  have e3 : encodeString (ascii "BaseNamespace") = ascii "\"BaseNamespace\"" := by decide
  have e4 : encodeString (ascii "GracePeriod") = ascii "\"GracePeriod\"" := by decide
  have e5 : encodeString [] = ascii "\"\"" := by decide
  simp only [JobSpec.Inputs, marshalJobSpec, JobSpec.zero, encodeStruct, encodeFields,
    omitEmptyString, List.length_nil, if_true, e1, e2, e3, e4, e5]
  simp [ascii]
  decide

/-! ## The job specification -/

/-- C1: `Inputs()` depends only on the `Refs` field: two job specifications
with equal `Refs` have equal `Inputs()`, whatever their other fields are. -/
theorem inputs_depends_only_on_refs (s1 s2 : JobSpec) (h : s1.Refs = s2.Refs) :
    s1.Inputs = s2.Inputs := by
  simp only [JobSpec.Inputs, h]

/-- C1, at two sample jobs that share their `Refs` and differ in every other
field. -/
theorem inputs_depends_only_on_refs_witness :
    sampleSpec.Refs = sampleSpecOther.Refs ∧ sampleSpec ≠ sampleSpecOther
      ∧ sampleSpec.Inputs = sampleSpecOther.Inputs :=
  ⟨rfl, by decide, inputs_depends_only_on_refs sampleSpec sampleSpecOther rfl⟩

/-- C2, as stated, fails: the organisations `0xff` and `0xfe` are different
strings, neither valid UTF-8, and `Inputs()` writes both as the replacement
character, so two different `Refs` have the same `Inputs()`. -/
theorem inputs_collide_on_invalid_utf8 :
    specOrgFF.Refs ≠ specOrgFE.Refs ∧ specOrgFF.Inputs = specOrgFE.Inputs := by
  decide

/-- C2, amended: `Inputs()` is injective on `Refs` whose strings are valid
UTF-8: two job specifications with such `Refs` that differ have different
`Inputs()`. -/
theorem inputs_injective_on_valid_refs (s1 s2 : JobSpec)
    (h1 : validRefs s1.Refs = true) (h2 : validRefs s2.Refs = true)
    (hne : s1.Refs ≠ s2.Refs) : s1.Inputs ≠ s2.Inputs := by
  intro h
  rw [inputs_shape, inputs_shape] at h
  simp only [List.cons.injEq, and_true] at h
  exact hne (marshalRefs_sep s1.Refs s2.Refs h1 h2 _ _ (List.append_cancel_left h)).1

/-- C2, amended, at the sample job with and without a pull. -/
theorem inputs_injective_on_valid_refs_witness :
    validRefs sampleSpec.Refs = true ∧ validRefs sampleSpecPull.Refs = true
      ∧ sampleSpec.Refs ≠ sampleSpecPull.Refs ∧ sampleSpec.Inputs ≠ sampleSpecPull.Inputs :=
  ⟨by decide, by decide, by decide,
    inputs_injective_on_valid_refs sampleSpec sampleSpecPull (by decide) (by decide)
      (by decide)⟩

/-- C4: `ResolveSpecFromEnv` fails in two distinguishable ways and in no
other: with the error `$JOB_SPEC unset` when the variable is unset, with an
error that starts with `malformed $JOB_SPEC: ` when its value does not
decode; the two errors are never equal; a value that decodes yields a
`JobSpec` and no error. -/
theorem resolveSpecFromEnv_errors (LookupEnv : GoString → Option GoString)
    (Unmarshal : GoString → JobSpec → Except GoString JobSpec) :
    (LookupEnv (ascii "JOB_SPEC") = none →
      ResolveSpecFromEnv LookupEnv Unmarshal = Except.error (ascii "$JOB_SPEC unset"))
    ∧ (∀ v err, LookupEnv (ascii "JOB_SPEC") = some v →
        Unmarshal v JobSpec.zero = Except.error err →
        ResolveSpecFromEnv LookupEnv Unmarshal
          = Except.error (ascii "malformed $JOB_SPEC: " ++ err))
    ∧ (∀ err, ascii "$JOB_SPEC unset" ≠ ascii "malformed $JOB_SPEC: " ++ err)
    ∧ (∀ v spec, LookupEnv (ascii "JOB_SPEC") = some v →
        Unmarshal v JobSpec.zero = Except.ok spec →
        ∃ s, ResolveSpecFromEnv LookupEnv Unmarshal = Except.ok s) := by
  refine ⟨?_, ?_, ?_, ?_⟩
  · intro h
    simp only [ResolveSpecFromEnv, h]
  · intro v err h hu
    simp only [ResolveSpecFromEnv, h, hu]
  · intro err h
    have e1 : ascii "$JOB_SPEC unset" = 0x24 :: ascii "JOB_SPEC unset" := by decide
    have e2 : ascii "malformed $JOB_SPEC: " = 0x6D :: ascii "alformed $JOB_SPEC: " := by decide
    rw [e1, e2] at h
    simp only [List.cons_append, List.cons.injEq] at h
    exact absurd h.1 (by decide)
  · intro v spec h hu
    exact ⟨{ spec with rawSpec := v }, by simp only [ResolveSpecFromEnv, h, hu]⟩

/-- C4, at an empty environment and at one whose value the decoder rejects:
the two errors differ. -/
theorem resolveSpecFromEnv_errors_witness :
    ResolveSpecFromEnv (fun _ => none) (fun _ _ => Except.error (ascii "EOF"))
        = Except.error (ascii "$JOB_SPEC unset")
      ∧ ResolveSpecFromEnv (fun _ => some []) (fun _ _ => Except.error (ascii "EOF"))
        = Except.error (ascii "malformed $JOB_SPEC: EOF") :=
  ⟨(resolveSpecFromEnv_errors (fun _ => none) (fun _ _ => Except.error (ascii "EOF"))).1 rfl,
    (resolveSpecFromEnv_errors (fun _ => some []) (fun _ _ => Except.error (ascii "EOF"))).2.1
      [] (ascii "EOF") rfl rfl⟩

/-- C5: the raw serialized form is retained verbatim: when `JOB_SPEC` holds
`v` and `v` decodes, `ResolveSpecFromEnv` returns a `JobSpec` whose
`RawSpec()` is `v`, whatever the decoder made of it, and `SetOwner` does not
change `RawSpec()`. -/
theorem resolveSpecFromEnv_rawSpec (LookupEnv : GoString → Option GoString)
    (Unmarshal : GoString → JobSpec → Except GoString JobSpec) (v : GoString) (spec : JobSpec)
    (hv : LookupEnv (ascii "JOB_SPEC") = some v)
    (hu : Unmarshal v JobSpec.zero = Except.ok spec) :
    ∃ s, ResolveSpecFromEnv LookupEnv Unmarshal = Except.ok s ∧ s.RawSpec = v
      ∧ ∀ owner, (s.SetOwner owner).RawSpec = v := by
  refine ⟨{ spec with rawSpec := v }, ?_, rfl, fun _ => rfl⟩
  simp only [ResolveSpecFromEnv, hv, hu]

/-- C5, at an environment that holds `raw` and a decoder that returns the
sample job, whose own raw form is different. -/
theorem resolveSpecFromEnv_rawSpec_witness :
    ∃ s, ResolveSpecFromEnv (fun _ => some (ascii "\x7b\x7d")) (fun _ _ => Except.ok sampleSpecOther)
        = Except.ok s ∧ s.RawSpec = ascii "\x7b\x7d"
      ∧ ∀ owner, (s.SetOwner owner).RawSpec = ascii "\x7b\x7d" :=
  resolveSpecFromEnv_rawSpec (fun _ => some (ascii "\x7b\x7d")) (fun _ _ => Except.ok sampleSpecOther)
    (ascii "\x7b\x7d") sampleSpecOther rfl rfl

/-! ## The source-directory image build step -/

open projectDirectoryImageBuildStep

theorem foldl_append_labels {B : Type} (l : List (GoString × GoString)) (b : Build B) :
    (l.foldl (fun build kv =>
        ({ build with ImageLabels := build.ImageLabels ++ [⟨kv.1, kv.2⟩] } : Build B)) b)
      = { body := b.body,
          ImageLabels := b.ImageLabels ++ l.map fun kv => (⟨kv.1, kv.2⟩ : ImageLabel) } := by
  induction l generalizing b with
  | nil => simp
  | cons kv t ih => simp [ih]

theorem labels_entries_base {E : Externals} (s : projectDirectoryImageBuildStep E)
    (h : s.jobSpec.Refs.Pulls = []) :
    (labels s).entries =
      [ (ascii "io.openshift.build.commit.ref", s.jobSpec.Refs.BaseRef),
        (ascii "org.opencontainers.image.revision", s.jobSpec.Refs.BaseSHA),
        (ascii "org.opencontainers.image.source",
          ascii "https://github.com/" ++ s.jobSpec.Refs.Org ++ ascii "/"
            ++ s.jobSpec.Refs.Repo) ] := by
  have k1 : ascii "org.opencontainers.image.source" ≠ ascii "org.opencontainers.image.revision" := by
    decide
  have k2 : ascii "org.opencontainers.image.source" ≠ ascii "io.openshift.build.commit.ref" := by
    decide
  have k3 : ascii "org.opencontainers.image.revision" ≠ ascii "io.openshift.build.commit.ref" := by
    decide
  simp [labels, h, GoMap.set, GoMap.make, List.filter, k1, k2, k3]

theorem labels_entries_pulls {E : Externals} (s : projectDirectoryImageBuildStep E)
    (h : s.jobSpec.Refs.Pulls ≠ []) :
    (labels s).entries =
      [ (ascii "io.openshift.build.commit.ref", []),
        (ascii "org.opencontainers.image.revision", []),
        (ascii "org.opencontainers.image.source", []) ] := by
  have k1 : ascii "org.opencontainers.image.source" ≠ ascii "org.opencontainers.image.revision" := by
    decide
  have k2 : ascii "org.opencontainers.image.source" ≠ ascii "io.openshift.build.commit.ref" := by
    decide
  have k3 : ascii "org.opencontainers.image.revision" ≠ ascii "io.openshift.build.commit.ref" := by
    decide
  simp [labels, h, GoMap.set, GoMap.make, List.filter, k1, k2, k3]

theorem images_eq {E : Externals} (s : projectDirectoryImageBuildStep E)
    (workingDir : GoString) :
    images s workingDir
      = E.buildInputsFromStep s.config.Inputs
        ++ (if (s.config.Inputs.lookup (ascii "src")).isNone then
              [{ From := { Kind := ascii "ImageStreamTag",
                           Name := E.PipelineImageStream ++ ascii ":"
                             ++ E.PipelineImageStreamTagReferenceSource },
                 As := [],
                 Paths := [{ SourcePath := workingDir ++ ascii "/" ++ s.config.ContextDir
                               ++ ascii "/.",
                             DestinationDir := ascii "." }] }]
            else []) := by
  cases h : s.config.Inputs.lookup (ascii "src") <;> simp [images, h, source]

theorem composeBuild_eq {E : Externals} (s : projectDirectoryImageBuildStep E)
    (range : GoMap GoString → List (GoString × GoString)) (workingDir : GoString) :
    composeBuild s range workingDir
      = { body := (sourceBuild s workingDir).body,
          ImageLabels := (sourceBuild s workingDir).ImageLabels
            ++ (range (labels s)).map fun kv => (⟨kv.1, kv.2⟩ : ImageLabel) } := by
  simp only [composeBuild, foldl_append_labels]

theorem labels_perm {E : Externals} (s : projectDirectoryImageBuildStep E)
    (range : GoMap GoString → List (GoString × GoString)) (hr : RangeOrder range) :
    ((range (labels s)).map fun kv => (⟨kv.1, kv.2⟩ : ImageLabel)).Perm
      (if s.jobSpec.Refs.Pulls = [] then
        [ ⟨ascii "org.opencontainers.image.source",
            ascii "https://github.com/" ++ s.jobSpec.Refs.Org ++ ascii "/"
              ++ s.jobSpec.Refs.Repo⟩,
          ⟨ascii "org.opencontainers.image.revision", s.jobSpec.Refs.BaseSHA⟩,
          ⟨ascii "io.openshift.build.commit.ref", s.jobSpec.Refs.BaseRef⟩ ]
      else
        [ ⟨ascii "org.opencontainers.image.source", []⟩,
          ⟨ascii "org.opencontainers.image.revision", []⟩,
          ⟨ascii "io.openshift.build.commit.ref", []⟩ ]) := by
  have hp := (hr (labels s)).map fun kv => (⟨kv.1, kv.2⟩ : ImageLabel)
  by_cases h : s.jobSpec.Refs.Pulls = []
  · rw [labels_entries_base s h] at hp
    rw [if_pos h]
    refine hp.trans ?_
    simp only [List.map_cons, List.map_nil]
    exact (List.reverse_perm _).symm.trans (by simp)
  · rw [labels_entries_pulls s h] at hp
    rw [if_neg h]
    refine hp.trans ?_
    simp only [List.map_cons, List.map_nil]
    exact (List.reverse_perm _).symm.trans (by simp)

theorem run_dry_eq {E : Externals} (s : projectDirectoryImageBuildStep E)
    (range : GoMap GoString → List (GoString × GoString)) :
    Run s range true
      = { lookups := [],
          build := some (composeBuild s range (ascii "dry-fake")),
          result := RunResult.returned
            ((E.handleBuild s.buildClient (composeBuild s range (ascii "dry-fake")) true).map
              RunError.handleBuild) } := rfl

theorem run_real_eq {E : Externals} (s : projectDirectoryImageBuildStep E)
    (range : GoMap GoString → List (GoString × GoString)) (ist : ImageStreamTag)
    (metadata : DockerImage) (workingDir : GoString)
    (h1 : s.istClient s.jobSpec.Namespace
      (E.PipelineImageStream ++ ascii ":" ++ E.PipelineImageStreamTagReferenceSource)
        = Except.ok ist)
    (h2 : ist.Raw ≠ []) (h3 : E.unmarshalDockerImage ist.Raw = Except.ok metadata)
    (h4 : metadata.Config = some workingDir) :
    Run s range false
      = { lookups := [Lookup.imageStreamTag s.jobSpec.Namespace
            (E.PipelineImageStream ++ ascii ":" ++ E.PipelineImageStreamTagReferenceSource)],
          build := some (composeBuild s range workingDir),
          result := RunResult.returned
            ((E.handleBuild s.buildClient (composeBuild s range workingDir) false).map
              RunError.handleBuild) } := by
  have hlen : ¬ ist.Raw.length = 0 := fun h => h2 (List.length_eq_zero.mp h)
  simp only [source] at *
  simp only [Run, Bool.false_eq_true, if_false, source, h1, hlen, h3, h4]

theorem run_build_cases {E : Externals} (s : projectDirectoryImageBuildStep E)
    (range : GoMap GoString → List (GoString × GoString)) (dry : Bool)
    (b : Build E.BuildBody) (hb : (Run s range dry).build = some b) :
    ∃ workingDir,
      (dry = true ∧ workingDir = ascii "dry-fake")
      ∨ (dry = false ∧ ∃ ist metadata,
          s.istClient s.jobSpec.Namespace
            (E.PipelineImageStream ++ ascii ":" ++ E.PipelineImageStreamTagReferenceSource)
              = Except.ok ist
          ∧ ist.Raw ≠ [] ∧ E.unmarshalDockerImage ist.Raw = Except.ok metadata
          ∧ metadata.Config = some workingDir) := by
  cases dry with
  | true => exact ⟨ascii "dry-fake", Or.inl ⟨rfl, rfl⟩⟩
  | false =>
    simp only [Run, Bool.false_eq_true, if_false, source] at hb
    split at hb
    · simp at hb
    · rename_i ist hist
      split at hb
      · simp at hb
      · rename_i hraw
        split at hb
        · simp at hb
        · rename_i metadata hmd
          split at hb
          · simp at hb
          · rename_i wd hwd
            exact ⟨wd, Or.inr ⟨rfl, ist, metadata, hist,
              fun h => hraw (by rw [h]; rfl), hmd, hwd⟩⟩

/-- C3: the provenance labels that `Run` attaches to the build are decided
by whether `Refs.Pulls` is empty.  Whenever `Run` gets past the working
directory (a dry run, with `dry-fake`, or a real run whose lookup of the
source tag yields a working directory), and only then, it hands a build to
`handleBuild`; whatever order the loop over the label map takes, that build
is the one `buildFromSource` returned for the configuration with three
labels appended: without pulls they are `org.opencontainers.image.source` =
`https://github.com/<Org>/<Repo>`, `org.opencontainers.image.revision` =
`BaseSHA` and `io.openshift.build.commit.ref` = `BaseRef`; with at least one
pull the same three names carry the empty string.  Each name is added
once. -/
theorem run_provenance_labels {E : Externals} (s : projectDirectoryImageBuildStep E)
    (range : GoMap GoString → List (GoString × GoString)) (hr : RangeOrder range) :
    (∀ (dry : Bool) (workingDir : GoString),
      ((dry = true ∧ workingDir = ascii "dry-fake")
        ∨ (dry = false ∧ ∃ ist metadata,
            s.istClient s.jobSpec.Namespace
              (E.PipelineImageStream ++ ascii ":" ++ E.PipelineImageStreamTagReferenceSource)
                = Except.ok ist
            ∧ ist.Raw ≠ [] ∧ E.unmarshalDockerImage ist.Raw = Except.ok metadata
            ∧ metadata.Config = some workingDir)) →
      ∃ b added base,
        base = E.buildFromSource s.jobSpec s.config.From s.config.To
          { Type_ := BuildSourceImage,
            Images := E.buildInputsFromStep s.config.Inputs
              ++ (if (s.config.Inputs.lookup (ascii "src")).isNone then
                    [{ From := { Kind := ascii "ImageStreamTag",
                                 Name := E.PipelineImageStream ++ ascii ":"
                                   ++ E.PipelineImageStreamTagReferenceSource },
                       As := [],
                       Paths := [{ SourcePath := workingDir ++ ascii "/"
                                     ++ s.config.ContextDir ++ ascii "/.",
                                   DestinationDir := ascii "." }] }]
                  else []) }
          s.config.DockerfilePath s.resources
        ∧ (Run s range dry).build = some b
        ∧ (Run s range dry).result
            = RunResult.returned
                ((E.handleBuild s.buildClient b dry).map RunError.handleBuild)
        ∧ b.body = base.body
        ∧ b.ImageLabels = base.ImageLabels ++ added
        ∧ (s.jobSpec.Refs.Pulls = [] →
            added.Perm
              [ ⟨ascii "org.opencontainers.image.source",
                  ascii "https://github.com/" ++ s.jobSpec.Refs.Org ++ ascii "/"
                    ++ s.jobSpec.Refs.Repo⟩,
                ⟨ascii "org.opencontainers.image.revision", s.jobSpec.Refs.BaseSHA⟩,
                ⟨ascii "io.openshift.build.commit.ref", s.jobSpec.Refs.BaseRef⟩ ])
        ∧ (s.jobSpec.Refs.Pulls ≠ [] →
            added.Perm
              [ ⟨ascii "org.opencontainers.image.source", []⟩,
                ⟨ascii "org.opencontainers.image.revision", []⟩,
                ⟨ascii "io.openshift.build.commit.ref", []⟩ ]))
    ∧ (∀ (dry : Bool) (b : Build E.BuildBody), (Run s range dry).build = some b →
        ∃ workingDir,
          (dry = true ∧ workingDir = ascii "dry-fake")
          ∨ (dry = false ∧ ∃ ist metadata,
              s.istClient s.jobSpec.Namespace
                (E.PipelineImageStream ++ ascii ":" ++ E.PipelineImageStreamTagReferenceSource)
                  = Except.ok ist
              ∧ ist.Raw ≠ [] ∧ E.unmarshalDockerImage ist.Raw = Except.ok metadata
              ∧ metadata.Config = some workingDir)) := by
  refine ⟨?_, fun dry b hb => run_build_cases s range dry b hb⟩
  intro dry workingDir hrun
  have hperm := labels_perm s range hr
  refine ⟨composeBuild s range workingDir,
    (range (labels s)).map fun kv => (⟨kv.1, kv.2⟩ : ImageLabel), _, rfl, ?_, ?_, ?_, ?_, ?_, ?_⟩
  · rcases hrun with ⟨hd, hw⟩ | ⟨hd, ist, metadata, h1, h2, h3, h4⟩
    · subst hd hw; rfl
    · subst hd; rw [run_real_eq s range ist metadata workingDir h1 h2 h3 h4]
  · rcases hrun with ⟨hd, hw⟩ | ⟨hd, ist, metadata, h1, h2, h3, h4⟩
    · subst hd hw; rfl
    · subst hd; rw [run_real_eq s range ist metadata workingDir h1 h2 h3 h4]
  · rw [composeBuild_eq]
    simp only [sourceBuild, images_eq]
  · rw [composeBuild_eq]
    simp only [sourceBuild, images_eq]
  · intro h
    rw [if_pos h] at hperm
    exact hperm
  · intro h
    rw [if_neg h] at hperm
    exact hperm

/-- C3, at the sample job without pulls, building `bin` in a real run on the
sample cluster: a build is handed over and its labels carry the repository,
`abc123` and `main`. -/
theorem run_provenance_labels_witness :
    RangeOrder (rangeEntries (V := GoString))
      ∧ sampleSpec.Refs.Pulls = []
      ∧ ∃ b added,
          (Run (sampleStep configBin sampleSpec) rangeEntries false).build = some b
          ∧ b.ImageLabels = added
          ∧ added.Perm
              [ ⟨ascii "org.opencontainers.image.source", ascii "https://github.com/acme/widget"⟩,
                ⟨ascii "org.opencontainers.image.revision", ascii "abc123"⟩,
                ⟨ascii "io.openshift.build.commit.ref", ascii "main"⟩ ] := by
  refine ⟨fun _ => List.Perm.refl _, rfl, ?_⟩
  obtain ⟨b, added, base, hbase, h1, _, _, h4, h5, _⟩ :=
    (run_provenance_labels (sampleStep configBin sampleSpec) rangeEntries
      (fun _ => List.Perm.refl _)).1 false (ascii "dry-fake")
      (Or.inr ⟨rfl, ⟨ascii "dry-fake"⟩, ⟨some (ascii "dry-fake")⟩, rfl, by decide, rfl, rfl⟩)
  subst hbase
  exact ⟨b, added, h1, h4, h5 rfl⟩

/-- C6, as stated, fails: for the configuration whose `To` is empty,
`Provides()` returns no parameter map and no Link, while `Creates()` still
returns one Link. -/
theorem provides_nothing_for_empty_to :
    (Provides (sampleStep configNoTo sampleSpec)).params.isNone = true
      ∧ (Provides (sampleStep configNoTo sampleSpec)).link = none
      ∧ Creates (sampleStep configNoTo sampleSpec) = [InternalImageLink []] := by
  decide

/-- C6, amended: for every step configuration whose `To` is not empty,
`Provides()` returns a parameter map with exactly one entry, named
`LOCAL_IMAGE_` followed by `To` with every `-` replaced by `_` and
upper-cased, together with the internal image Link for `To`, which is the
single Link that `Creates()` returns. -/
theorem provides_one_parameter {E : Externals} (s : projectDirectoryImageBuildStep E)
    (hto : s.config.To ≠ []) :
    ∃ m accessor, (Provides s).params = some m
      ∧ m.entries = [(ascii "LOCAL_IMAGE_" ++ ToUpper E (Replace s.config.To 0x2D 0x5F), accessor)]
      ∧ (Provides s).link = some (InternalImageLink s.config.To)
      ∧ Creates s = [InternalImageLink s.config.To] := by
  have hlen : ¬ s.config.To.length = 0 := fun h => hto (List.length_eq_zero.mp h)
  refine ⟨GoMap.make.set (ascii "LOCAL_IMAGE_" ++ ToUpper E (Replace s.config.To 0x2D 0x5F))
    (localImageAccessor s), localImageAccessor s, ?_, ?_, ?_, rfl⟩
  · simp only [Provides, hlen, if_false]
  · simp [GoMap.set, GoMap.make]
  · simp only [Provides, hlen, if_false]

/-- C6, amended, at the configuration that builds `my-app`: the parameter is
`LOCAL_IMAGE_MY_APP`. -/
theorem provides_one_parameter_witness :
    configApp.To ≠ []
      ∧ ∃ m accessor, (Provides (sampleStep configApp sampleSpec)).params = some m
          ∧ m.entries = [(ascii "LOCAL_IMAGE_MY_APP", accessor)]
          ∧ (Provides (sampleStep configApp sampleSpec)).link
              = some (InternalImageLink (ascii "my-app"))
          ∧ Creates (sampleStep configApp sampleSpec) = [InternalImageLink (ascii "my-app")] :=
  ⟨by decide, provides_one_parameter (sampleStep configApp sampleSpec) (by decide)⟩

theorem foldl_append_links {V : Type} (l : List (GoString × V)) (links : List StepLink) :
    l.foldl (fun links kv => links ++ [InternalImageLink kv.1]) links
      = links ++ l.map fun kv => InternalImageLink kv.1 := by
  induction l generalizing links with
  | nil => simp
  | cons kv t ih => simp [ih]

theorem requires_eq {E : Externals} (s : projectDirectoryImageBuildStep E)
    (range : GoMap E.ImageBuildInputs → List (GoString × E.ImageBuildInputs)) :
    Requires s range = InternalImageLink E.PipelineImageStreamTagReferenceSource
      :: ((if s.config.From.length > 0 then [InternalImageLink s.config.From] else [])
          ++ ((range s.config.Inputs).map Prod.fst).map InternalImageLink) := by
  simp only [Requires, foldl_append_links, List.map_map]
  split_ifs <;> simp [Function.comp]

/-- C7: `Requires()` is the pipeline's source Link plus the declared inputs.
Its first element is the internal image Link for the pipeline source tag;
then comes the Link for `config.From` exactly when `config.From` is not
empty; then one Link for every key of `config.Inputs`, in the order of the
loop; there is nothing else, so the length is 1, plus 1 if `config.From` is
not empty, plus the number of keys of `config.Inputs`. -/
theorem requires_source_from_inputs {E : Externals} (s : projectDirectoryImageBuildStep E)
    (range : GoMap E.ImageBuildInputs → List (GoString × E.ImageBuildInputs))
    (hr : RangeOrder range) :
    ∃ inputs,
      inputs.Perm (s.config.Inputs.keys.map InternalImageLink)
      ∧ Requires s range = InternalImageLink E.PipelineImageStreamTagReferenceSource
          :: ((if s.config.From ≠ [] then [InternalImageLink s.config.From] else []) ++ inputs)
      ∧ (Requires s range).head? = some (InternalImageLink E.PipelineImageStreamTagReferenceSource)
      ∧ (Requires s range).length
          = 1 + (if s.config.From ≠ [] then 1 else 0) + s.config.Inputs.keys.length := by
  have hp : (((range s.config.Inputs).map Prod.fst).map InternalImageLink).Perm
      (s.config.Inputs.keys.map InternalImageLink) :=
    ((hr s.config.Inputs).map Prod.fst).map InternalImageLink
  have hfrom : (if s.config.From.length > 0 then [InternalImageLink s.config.From] else [])
      = (if s.config.From ≠ [] then [InternalImageLink s.config.From] else []) := by
    cases hf : s.config.From <;> simp
  refine ⟨_, hp, ?_, ?_, ?_⟩
  · rw [requires_eq, hfrom]
  · rw [requires_eq]; rfl
  · rw [requires_eq, hfrom]
    have := hp.length_eq
    simp only [List.length_map] at this
    simp only [List.length_cons, List.length_append, List.length_map, this, GoMap.keys]
    split_ifs <;> simp <;> omega

/-- C7, at the configuration with base image `root` and input `tools`. -/
theorem requires_source_from_inputs_witness :
    RangeOrder (rangeEntries (V := Unit))
      ∧ ∃ inputs,
          inputs.Perm (configApp.Inputs.keys.map InternalImageLink)
          ∧ Requires (sampleStep configApp sampleSpec) rangeEntries
              = InternalImageLink (ascii "src")
                :: ((if configApp.From ≠ [] then [InternalImageLink configApp.From] else [])
                    ++ inputs)
          ∧ (Requires (sampleStep configApp sampleSpec) rangeEntries).head?
              = some (InternalImageLink (ascii "src"))
          ∧ (Requires (sampleStep configApp sampleSpec) rangeEntries).length
              = 1 + (if configApp.From ≠ [] then 1 else 0) + configApp.Inputs.keys.length :=
  ⟨fun _ => List.Perm.refl _,
    requires_source_from_inputs (sampleStep configApp sampleSpec) rangeEntries
      (fun _ => List.Perm.refl _)⟩

/-- C8, as stated, fails: for the configuration that declares `src` as an
input, the dry run hands to `buildFromSource` exactly the images of
`buildInputsFromStep`; no source image is appended, and none of the images
has the source path `dry-fake/cmd/.`. -/
theorem run_dry_appends_no_source_image :
    (configSrcInput.Inputs.lookup (ascii "src")).isSome = true
      ∧ (Run (sampleStep configSrcInput sampleSpec) rangeEntries true).build.map
            (fun b => b.body.2.2.1.Images)
          = some (sampleExternals.buildInputsFromStep configSrcInput.Inputs)
      ∧ ¬ ∃ image ∈ sampleExternals.buildInputsFromStep configSrcInput.Inputs,
            ∃ path ∈ image.Paths, path.SourcePath = ascii "dry-fake/cmd/." := by
  decide

/-- C8, amended: in dry-run mode `Run` substitutes a placeholder for the
value it would otherwise look up.  For every configuration and job, a dry
run makes no lookup, hands a build to `handleBuild` and ends with what
`handleBuild` returns, so with none of the three lookup errors and without a
panic.  The build is the one `buildFromSource` returns for the job, `From`,
`To`, the Dockerfile path, the resources and the images of
`buildInputsFromStep`, followed, when `config.Inputs` has no `src` entry, by
the source image with the source path `dry-fake/<ContextDir>/.` (with such an
entry no source image is appended), with the three provenance labels
appended.  A real run whose lookup yields the working directory `dry-fake`
makes the lookup and hands over the same build, the same up to the order of
the appended labels when its loop over the label map takes another order. -/
theorem run_dry_placeholder {E : Externals} (s : projectDirectoryImageBuildStep E)
    (range rangeReal : GoMap GoString → List (GoString × GoString))
    (hr : RangeOrder range) (hreal : RangeOrder rangeReal) :
    ∃ b added base,
      base = E.buildFromSource s.jobSpec s.config.From s.config.To
        { Type_ := BuildSourceImage,
          Images := E.buildInputsFromStep s.config.Inputs
            ++ (if (s.config.Inputs.lookup (ascii "src")).isNone then
                  [{ From := { Kind := ascii "ImageStreamTag",
                               Name := E.PipelineImageStream ++ ascii ":"
                                 ++ E.PipelineImageStreamTagReferenceSource },
                     As := [],
                     Paths := [{ SourcePath := ascii "dry-fake" ++ ascii "/"
                                   ++ s.config.ContextDir ++ ascii "/.",
                                 DestinationDir := ascii "." }] }]
                else []) }
        s.config.DockerfilePath s.resources
      ∧ (Run s range true).lookups = []
      ∧ (Run s range true).build = some b
      ∧ (Run s range true).result
          = RunResult.returned ((E.handleBuild s.buildClient b true).map RunError.handleBuild)
      ∧ (∀ err, (Run s range true).result
          ≠ RunResult.returned (some (RunError.fetchSourceImageStreamTag err)))
      ∧ (∀ source, (Run s range true).result
          ≠ RunResult.returned (some (RunError.fetchDockerImageMetadata source)))
      ∧ (∀ err, (Run s range true).result
          ≠ RunResult.returned (some (RunError.malformedDockerImageMetadata err)))
      ∧ (Run s range true).result ≠ RunResult.panicked
      ∧ b.body = base.body
      ∧ b.ImageLabels = base.ImageLabels ++ added
      ∧ added.Perm
          (if s.jobSpec.Refs.Pulls = [] then
            [ ⟨ascii "org.opencontainers.image.source",
                ascii "https://github.com/" ++ s.jobSpec.Refs.Org ++ ascii "/"
                  ++ s.jobSpec.Refs.Repo⟩,
              ⟨ascii "org.opencontainers.image.revision", s.jobSpec.Refs.BaseSHA⟩,
              ⟨ascii "io.openshift.build.commit.ref", s.jobSpec.Refs.BaseRef⟩ ]
          else
            [ ⟨ascii "org.opencontainers.image.source", []⟩,
              ⟨ascii "org.opencontainers.image.revision", []⟩,
              ⟨ascii "io.openshift.build.commit.ref", []⟩ ])
      ∧ (∀ ist metadata,
          s.istClient s.jobSpec.Namespace
            (E.PipelineImageStream ++ ascii ":" ++ E.PipelineImageStreamTagReferenceSource)
              = Except.ok ist →
          ist.Raw ≠ [] → E.unmarshalDockerImage ist.Raw = Except.ok metadata →
          metadata.Config = some (ascii "dry-fake") →
          (Run s range false).lookups
              = [Lookup.imageStreamTag s.jobSpec.Namespace
                  (E.PipelineImageStream ++ ascii ":"
                    ++ E.PipelineImageStreamTagReferenceSource)]
            ∧ (Run s range false).build = some b
            ∧ ∃ b2 added2, (Run s rangeReal false).build = some b2
                ∧ b2.body = base.body
                ∧ b2.ImageLabels = base.ImageLabels ++ added2
                ∧ added2.Perm added) := by
  have hres : (Run s range true).result
      = RunResult.returned
          ((E.handleBuild s.buildClient (composeBuild s range (ascii "dry-fake")) true).map
            RunError.handleBuild) := rfl
  have hbody : ∀ r : GoMap GoString → List (GoString × GoString),
      (composeBuild s r (ascii "dry-fake")).body
        = (E.buildFromSource s.jobSpec s.config.From s.config.To
            { Type_ := BuildSourceImage,
              Images := E.buildInputsFromStep s.config.Inputs
                ++ (if (s.config.Inputs.lookup (ascii "src")).isNone then
                      [{ From := { Kind := ascii "ImageStreamTag",
                                   Name := E.PipelineImageStream ++ ascii ":"
                                     ++ E.PipelineImageStreamTagReferenceSource },
                         As := [],
                         Paths := [{ SourcePath := ascii "dry-fake" ++ ascii "/"
                                       ++ s.config.ContextDir ++ ascii "/.",
                                     DestinationDir := ascii "." }] }]
                    else []) }
            s.config.DockerfilePath s.resources).body := by
    intro r
    rw [composeBuild_eq]
    simp only [sourceBuild, images_eq]
  have hlabels : ∀ r : GoMap GoString → List (GoString × GoString),
      (composeBuild s r (ascii "dry-fake")).ImageLabels
        = (E.buildFromSource s.jobSpec s.config.From s.config.To
            { Type_ := BuildSourceImage,
              Images := E.buildInputsFromStep s.config.Inputs
                ++ (if (s.config.Inputs.lookup (ascii "src")).isNone then
                      [{ From := { Kind := ascii "ImageStreamTag",
                                   Name := E.PipelineImageStream ++ ascii ":"
                                     ++ E.PipelineImageStreamTagReferenceSource },
                         As := [],
                         Paths := [{ SourcePath := ascii "dry-fake" ++ ascii "/"
                                       ++ s.config.ContextDir ++ ascii "/.",
                                     DestinationDir := ascii "." }] }]
                    else []) }
            s.config.DockerfilePath s.resources).ImageLabels
          ++ (r (labels s)).map fun kv => (⟨kv.1, kv.2⟩ : ImageLabel) := by
    intro r
    rw [composeBuild_eq]
    simp only [sourceBuild, images_eq]
  refine ⟨composeBuild s range (ascii "dry-fake"),
    (range (labels s)).map fun kv => (⟨kv.1, kv.2⟩ : ImageLabel), _, rfl, rfl, rfl, hres,
    ?_, ?_, ?_, ?_, hbody range, hlabels range, labels_perm s range hr, ?_⟩
  · intro err h
    rw [hres] at h
    cases hh : E.handleBuild s.buildClient (composeBuild s range (ascii "dry-fake")) true <;>
      simp [hh] at h
  · intro src h
    rw [hres] at h
    cases hh : E.handleBuild s.buildClient (composeBuild s range (ascii "dry-fake")) true <;>
      simp [hh] at h
  · intro err h
    rw [hres] at h
    cases hh : E.handleBuild s.buildClient (composeBuild s range (ascii "dry-fake")) true <;>
      simp [hh] at h
  · rw [hres]; simp
  · intro ist metadata h1 h2 h3 h4
    rw [run_real_eq s range ist metadata _ h1 h2 h3 h4,
      run_real_eq s rangeReal ist metadata _ h1 h2 h3 h4]
    refine ⟨rfl, rfl, composeBuild s rangeReal (ascii "dry-fake"),
      (rangeReal (labels s)).map fun kv => (⟨kv.1, kv.2⟩ : ImageLabel), rfl, hbody rangeReal,
      hlabels rangeReal, ?_⟩
    exact ((hreal (labels s)).trans (hr (labels s)).symm).map _

/-- C8, amended, at the sample step, whose cluster reports the working
directory `dry-fake`: the dry run makes no lookup, and the real run, whose
loop takes the reverse order, makes one and hands over the same build up to
the order of the labels. -/
theorem run_dry_placeholder_witness :
    RangeOrder (rangeEntries (V := GoString)) ∧ RangeOrder (rangeReversed (V := GoString))
      ∧ ∃ b b2,
          (Run (sampleStep configBin sampleSpec) rangeEntries true).lookups = []
          ∧ (Run (sampleStep configBin sampleSpec) rangeEntries true).build = some b
          ∧ b.body.2.2.1.Images.map (fun i => i.Paths.map fun p => p.SourcePath)
              = [[ascii "dry-fake/cmd/."]]
          ∧ (Run (sampleStep configBin sampleSpec) rangeEntries false).lookups
              = [Lookup.imageStreamTag (ascii "ci-op-1") (ascii "pipeline:src")]
          ∧ (Run (sampleStep configBin sampleSpec) rangeReversed false).build = some b2
          ∧ b2.body = b.body
          ∧ b2.ImageLabels.Perm b.ImageLabels := by
  refine ⟨fun _ => List.Perm.refl _, fun m => List.reverse_perm m.entries, ?_⟩
  obtain ⟨b, added, base, hbase, h1, h2, _, _, _, _, _, h9, h10, _, h12⟩ :=
    run_dry_placeholder (sampleStep configBin sampleSpec) rangeEntries rangeReversed
      (fun _ => List.Perm.refl _) (fun m => List.reverse_perm m.entries)
  obtain ⟨hl, _, b2, added2, hb2, hbody2, hlab2, hperm⟩ :=
    h12 ⟨ascii "dry-fake"⟩ ⟨some (ascii "dry-fake")⟩ rfl (by decide) rfl rfl
  subst hbase
  refine ⟨b, b2, h1, h2, ?_, hl, hb2, hbody2.trans h9.symm, ?_⟩
  · rw [h9]; decide
  · rw [hlab2, h10]
    exact hperm.append_left _

/-- C9, as stated, fails: when `config.From` names the pipeline source tag,
`Requires()` returns the source Link twice, and the two match. -/
theorem requires_repeats_source_link :
    Requires (sampleStep configFromSrc sampleSpec) rangeEntries
        = [InternalImageLink (ascii "src"), InternalImageLink (ascii "src")]
      ∧ (InternalImageLink (ascii "src")).Matches (InternalImageLink (ascii "src")) = true
      ∧ ¬ (Requires (sampleStep configFromSrc sampleSpec) rangeEntries).Pairwise
            (fun a b => a.Matches b = false) := by
  decide

/-- C9, amended: no two elements of `Requires()` match each other, provided
that `config.From`, when not empty, is neither the pipeline source tag nor a
key of `config.Inputs`, and that no key of `config.Inputs` is the pipeline
source tag. -/
theorem requires_pairwise_distinct {E : Externals} (s : projectDirectoryImageBuildStep E)
    (range : GoMap E.ImageBuildInputs → List (GoString × E.ImageBuildInputs))
    (hr : RangeOrder range)
    (hfrom : s.config.From ≠ [] →
      s.config.From ≠ E.PipelineImageStreamTagReferenceSource
        ∧ s.config.From ∉ s.config.Inputs.keys)
    (hsrc : E.PipelineImageStreamTagReferenceSource ∉ s.config.Inputs.keys) :
    (Requires s range).Pairwise (fun a b => a.Matches b = false) := by
  have hperm : ((range s.config.Inputs).map Prod.fst).Perm s.config.Inputs.keys :=
    (hr s.config.Inputs).map Prod.fst
  have hnd : ((range s.config.Inputs).map Prod.fst).Nodup :=
    hperm.nodup_iff.mpr s.config.Inputs.nodup
  have hmem : ∀ k, k ∈ (range s.config.Inputs).map Prod.fst ↔ k ∈ s.config.Inputs.keys :=
    fun k => hperm.mem_iff
  have htags : (E.PipelineImageStreamTagReferenceSource
      :: ((if s.config.From.length > 0 then [s.config.From] else [])
          ++ (range s.config.Inputs).map Prod.fst)).Nodup := by
    by_cases hf : s.config.From = []
    · simp only [hf, List.length_nil, gt_iff_lt, lt_self_iff_false, if_false, List.nil_append,
        List.nodup_cons]
      exact ⟨fun h => hsrc ((hmem _).mp h), hnd⟩
    · have hpos : s.config.From.length > 0 := List.length_pos.mpr hf
      obtain ⟨h1, h2⟩ := hfrom hf
      simp only [hpos, if_true, List.singleton_append, List.nodup_cons, List.mem_cons]
      refine ⟨?_, fun h => h2 ((hmem _).mp h), hnd⟩
      rintro (h | h)
      · exact h1 h.symm
      · exact hsrc ((hmem _).mp h)
  have heq : Requires s range
      = (E.PipelineImageStreamTagReferenceSource
          :: ((if s.config.From.length > 0 then [s.config.From] else [])
              ++ (range s.config.Inputs).map Prod.fst)).map InternalImageLink := by
    rw [requires_eq]
    split_ifs <;> simp
  rw [heq, List.pairwise_map]
  refine htags.imp ?_
  intro a b hab
  simp [InternalImageLink, StepLink.Matches, hab]

/-- C9, amended, at the configuration with base image `root` and input
`tools`. -/
theorem requires_pairwise_distinct_witness :
    RangeOrder (rangeEntries (V := Unit))
      ∧ (Requires (sampleStep configApp sampleSpec) rangeEntries).Pairwise
          (fun a b => a.Matches b = false) :=
  ⟨fun _ => List.Perm.refl _,
    requires_pairwise_distinct (sampleStep configApp sampleSpec) rangeEntries
      (fun _ => List.Perm.refl _) (fun _ => by decide) (by decide)⟩

/-- C10: the accessor of the parameter that `Provides()` exposes resolves
the registry reference from the image stream it looks up.  `Provides()`
itself makes no lookup; every accessor it returns makes one lookup of the
pipeline image stream when invoked and returns
`<PublicDockerImageRepository>:<To>` when that repository is not empty,
`<DockerImageRepository>:<To>` when only that one is not empty, and an
error together with the empty string exactly when the lookup fails or both
repositories are empty. -/
theorem provides_accessor {E : Externals} (s : projectDirectoryImageBuildStep E)
    (m : ParameterMap) (hm : (Provides s).params = some m)
    (name : GoString) (accessor : Unit → AccessorOutcome)
    (hacc : (name, accessor) ∈ m.entries) :
    (Provides s).lookups = []
    ∧ (accessor ()).lookups = [Lookup.imageStream s.jobSpec.Namespace E.PipelineImageStream]
    ∧ (∀ is_, s.imageClient s.jobSpec.Namespace E.PipelineImageStream = Except.ok is_ →
        is_.PublicDockerImageRepository ≠ [] →
        (accessor ()).value = is_.PublicDockerImageRepository ++ ascii ":" ++ s.config.To
          ∧ (accessor ()).err = none)
    ∧ (∀ is_, s.imageClient s.jobSpec.Namespace E.PipelineImageStream = Except.ok is_ →
        is_.PublicDockerImageRepository = [] → is_.DockerImageRepository ≠ [] →
        (accessor ()).value = is_.DockerImageRepository ++ ascii ":" ++ s.config.To
          ∧ (accessor ()).err = none)
    ∧ ((accessor ()).err ≠ none ↔
        ((∃ err, s.imageClient s.jobSpec.Namespace E.PipelineImageStream = Except.error err)
          ∨ ∃ is_, s.imageClient s.jobSpec.Namespace E.PipelineImageStream = Except.ok is_
              ∧ is_.PublicDockerImageRepository = [] ∧ is_.DockerImageRepository = []))
    ∧ ((accessor ()).err ≠ none → (accessor ()).value = []) := by
  have hl : (Provides s).lookups = [] := by
    simp only [Provides]; split_ifs <;> rfl
  have hacc2 : accessor = localImageAccessor s := by
    simp only [Provides] at hm
    split_ifs at hm
    simp only [Option.some.injEq] at hm
    rw [← hm] at hacc
    simp only [GoMap.set, GoMap.make, List.filter_nil, List.mem_singleton,
      Prod.mk.injEq] at hacc
    exact hacc.2
  subst hacc2
  refine ⟨hl, ?_, ?_, ?_, ?_, ?_⟩
  · simp only [localImageAccessor]
    split
    · rfl
    · split_ifs <;> rfl
  · intro is_ h hp
    have hpos : is_.PublicDockerImageRepository.length > 0 := List.length_pos.mpr hp
    simp [localImageAccessor, h, hpos]
  · intro is_ h hp hd
    have hpos : is_.DockerImageRepository.length > 0 := List.length_pos.mpr hd
    simp [localImageAccessor, h, hp, hpos]
  · cases h : s.imageClient s.jobSpec.Namespace E.PipelineImageStream with
    | error err => simp [localImageAccessor, h]
    | ok is_ =>
      by_cases hp : is_.PublicDockerImageRepository = []
      · by_cases hd : is_.DockerImageRepository = []
        · simp [localImageAccessor, h, hp, hd]
        · have hpos : is_.DockerImageRepository.length > 0 := List.length_pos.mpr hd
          simp [localImageAccessor, h, hp, hd, hpos]
      · have hpos : is_.PublicDockerImageRepository.length > 0 := List.length_pos.mpr hp
        simp [localImageAccessor, h, hp, hpos]
  · cases h : s.imageClient s.jobSpec.Namespace E.PipelineImageStream with
    | error err => simp [localImageAccessor, h]
    | ok is_ =>
      by_cases hp : is_.PublicDockerImageRepository = []
      · by_cases hd : is_.DockerImageRepository = []
        · simp [localImageAccessor, h, hp, hd]
        · have hpos : is_.DockerImageRepository.length > 0 := List.length_pos.mpr hd
          simp [localImageAccessor, h, hp, hd, hpos]
      · have hpos : is_.PublicDockerImageRepository.length > 0 := List.length_pos.mpr hp
        simp [localImageAccessor, h, hp, hpos]

/-- C10, at the configuration that builds `my-app` on a cluster whose
pipeline image stream has only an internal repository: the accessor looks the
stream up once and returns the internal repository with the tag. -/
theorem provides_accessor_witness :
    (Provides (sampleStep configApp sampleSpec)).lookups = []
      ∧ (localImageAccessor (sampleStep configApp sampleSpec) ()).lookups
          = [Lookup.imageStream (ascii "ci-op-1") (ascii "pipeline")]
      ∧ (localImageAccessor (sampleStep configApp sampleSpec) ()).value
          = ascii "registry.svc:5000/ci-op-1/pipeline:my-app"
      ∧ (localImageAccessor (sampleStep configApp sampleSpec) ()).err = none := by
  have h := provides_accessor (sampleStep configApp sampleSpec)
    (GoMap.make.set (ascii "LOCAL_IMAGE_MY_APP") (localImageAccessor (sampleStep configApp sampleSpec)))
    rfl (ascii "LOCAL_IMAGE_MY_APP") (localImageAccessor (sampleStep configApp sampleSpec))
    (List.Mem.head _)
  exact ⟨h.1, h.2.1,
    (h.2.2.2.1 ⟨[], ascii "registry.svc:5000/ci-op-1/pipeline"⟩ rfl rfl (by decide)).1,
    (h.2.2.2.1 ⟨[], ascii "registry.svc:5000/ci-op-1/pipeline"⟩ rfl rfl (by decide)).2⟩

end CiOperator
